import Mathlib

/-!
Verification of the rule-based error-detection and score-fusion engine of the
writing-assessment pipeline (`backend/ml_scripts/error_detection.py` and
`backend/ml_scripts/essay_inference.py`).

Conventions of the embedding:
* Python `float` score arithmetic is modelled by exact rationals `ℚ`
  (all constants in the source are short decimals).
* Texts are `List Char`; Python `str` indices are list positions.
* Python dictionaries with a fixed key set are structures; `dict.get(k, d)`
  on a key that is always present is a plain field access.
* A Python function that may raise is modelled with `Option`: the caller's
  `try/except` is a `match`.
* `sorted`/`list.sort` are stable sorts and are modelled by
  `List.insertionSort`, which is extensionally equal to any stable sort
  for the total preorders used here.
* Rational constants inside detection records are written with
  `Rat.mk'` (via `deci`) so that record comparisons reduce in the kernel;
  score arithmetic uses ordinary literals.
-/

/-- Decimal rational `n / d` in normal form, kernel-reducible. -/
def deci (n : Int) (d : Nat) (h1 : d ≠ 0 := by decide)
    (h2 : n.natAbs.Coprime d := by decide) : ℚ :=
  Rat.mk' n d h1 h2

/-- Error categories of `AdvancedErrorDetector.error_types`. -/
inductive ErrCategory where
  | spelling | grammar | punctuation | word_choice
  | style | coherence | redundancy | clarity
deriving DecidableEq, Repr

/-- Severity tags used by the detectors. -/
inductive Severity where
  | low | medium | high
deriving DecidableEq, Repr

/-- One detected error, as produced by the detectors in
`error_detection.py`.  The display-only fields (`text`, `suggestion`,
`explanation`, `error_type` label) are omitted: no claim mentions them and
no control flow in the engine reads them. -/
structure ErrorRecord where
  category : ErrCategory
  start_pos : Nat
  end_pos : Nat
  severity : Severity
  confidence : ℚ
deriving DecidableEq, Repr

/-- The five aspect scores handled by `essay_inference.py`
(`overall`, `content`, `organization`, `language`, `conventions`). -/
structure AspectScores where
  overall : ℚ
  content : ℚ
  organization : ℚ
  language : ℚ
  conventions : ℚ
deriving DecidableEq, Repr

/-- `ComprehensiveEssayAnalyzer.get_ml_scores`: the ML provider either
returns scores (`some`) or raises (`none`); on failure the neutral default
6.0 is substituted for all five scores. -/
def get_ml_scores (providerResult : Option AspectScores) : AspectScores :=
  match providerResult with
  | some s => s
  | none => ⟨6.0, 6.0, 6.0, 6.0, 6.0⟩

/-- `ComprehensiveEssayAnalyzer.combine_scores`.  The Python loop runs over
the aspect list `["content", "organization", "language", "conventions"]`
mutating the local variables `ml_weight`/`rule_weight` (initially 0.7/0.3);
the loop is unrolled here with the weight pair threaded through in the
same order. -/
def combine_scores (ml_scores rule_scores : AspectScores) : AspectScores :=
  let w0 : ℚ × ℚ := (0.7, 0.3)
  let w1 := if |ml_scores.content - rule_scores.content| > 2.0 then ((0.4 : ℚ), (0.6 : ℚ)) else w0
  let content := ml_scores.content * w1.1 + rule_scores.content * w1.2
  let w2 := if |ml_scores.organization - rule_scores.organization| > 2.0 then ((0.4 : ℚ), (0.6 : ℚ)) else w1
  let organization := ml_scores.organization * w2.1 + rule_scores.organization * w2.2
  let w3 := if |ml_scores.language - rule_scores.language| > 2.0 then ((0.4 : ℚ), (0.6 : ℚ)) else w2
  let language := ml_scores.language * w3.1 + rule_scores.language * w3.2
  let w4 := if |ml_scores.conventions - rule_scores.conventions| > 2.0 then ((0.4 : ℚ), (0.6 : ℚ)) else w3
  let conventions := ml_scores.conventions * w4.1 + rule_scores.conventions * w4.2
  let overall := (content + organization + language + conventions) / 4
  ⟨overall, content, organization, language, conventions⟩

/-- The per-category tallies built by the counting loop at the top of
`adjust_scores_for_errors` (`error_counts`). -/
structure ErrorCounts where
  spelling : Nat
  grammar : Nat
  punctuation : Nat
  style : Nat
deriving DecidableEq, Repr

/-- One step of the counting loop in `adjust_scores_for_errors`: an error
whose `type` is one of the four keys increments that key, all others are
ignored. -/
def tally_step (acc : ErrorCounts) (e : ErrorRecord) : ErrorCounts :=
  match e.category with
  | .spelling => { acc with spelling := acc.spelling + 1 }
  | .grammar => { acc with grammar := acc.grammar + 1 }
  | .punctuation => { acc with punctuation := acc.punctuation + 1 }
  | .style => { acc with style := acc.style + 1 }
  | _ => acc

/-- The counting loop of `adjust_scores_for_errors`. -/
def tally_errors (errors : List ErrorRecord) : ErrorCounts :=
  errors.foldl tally_step ⟨0, 0, 0, 0⟩

/-- `ComprehensiveEssayAnalyzer.adjust_scores_for_errors`. -/
def adjust_scores_for_errors (scores : AspectScores) (errors : List ErrorRecord) : AspectScores :=
  let counts := tally_errors errors
  let total_errors := counts.spelling + counts.grammar + counts.punctuation + counts.style
  let conventions :=
    if total_errors > 0 then
      max (scores.conventions - min ((total_errors : ℚ) * 0.15) 2.5) 1.0
    else scores.conventions
  let language :=
    if counts.style > 3 then
      max (scores.language - min ((counts.style : ℚ) * 0.1) 1.0) 1.0
    else scores.language
  let overall := (scores.content + scores.organization + language + conventions) / 4
  { scores with conventions := conventions, language := language, overall := overall }

/-- Number of detected errors of a given category. -/
def count_category (errors : List ErrorRecord) (c : ErrCategory) : Nat :=
  errors.countP (fun e => e.category = c)

/-- Example pre-adjustment score dictionary with `conventions = 0.5`,
used to refute monotonicity of the error penalty. -/
def exampleScoresLow : AspectScores := ⟨6.0, 6.0, 6.0, 6.0, 0.5⟩

/-- Example neutral pre-adjustment score dictionary. -/
def exampleScoresMid : AspectScores := ⟨6.0, 6.0, 6.0, 6.0, 6.0⟩

/-- Example spelling error record (as produced by
`detect_spelling_errors`: severity medium, confidence 0.9). -/
def exampleSpellingError : ErrorRecord :=
  ⟨.spelling, 0, 4, .medium, deci 9 10⟩

/-- Example coherence error record (as produced by
`detect_coherence_issues`: severity low, confidence 0.6); its category is
not one of the four counted by `adjust_scores_for_errors`. -/
def exampleCoherenceError : ErrorRecord :=
  ⟨.coherence, 5, 10, .low, deci 3 5⟩

/-- The key order of the sort inside `filter_overlapping_errors`:
`sorted(errors, key=lambda x: (x["start_pos"], -x["confidence"]))`, i.e.
start offset ascending, confidence descending. -/
def startConfLE (x y : ErrorRecord) : Prop :=
  x.start_pos < y.start_pos ∨ (x.start_pos = y.start_pos ∧ y.confidence ≤ x.confidence)

instance : DecidableRel startConfLE := fun x y => by unfold startConfLE; infer_instance

instance : IsTotal ErrorRecord startConfLE := ⟨by
  intro a b
  unfold startConfLE
  rcases lt_trichotomy a.start_pos b.start_pos with h | h | h
  · exact Or.inl (Or.inl h)
  · rcases le_total b.confidence a.confidence with hc | hc
    · exact Or.inl (Or.inr ⟨h, hc⟩)
    · exact Or.inr (Or.inr ⟨h.symm, hc⟩)
  · exact Or.inr (Or.inl h)⟩

instance : IsTrans ErrorRecord startConfLE := ⟨by
  intro a b c hab hbc
  unfold startConfLE at *
  rcases hab with h1 | ⟨h1, hc1⟩
  · rcases hbc with h2 | ⟨h2, _⟩
    · exact Or.inl (h1.trans h2)
    · exact Or.inl (h2 ▸ h1)
  · rcases hbc with h2 | ⟨h2, hc2⟩
    · exact Or.inl (h1 ▸ h2)
    · exact Or.inr ⟨h1.trans h2, hc2.trans hc1⟩⟩

/-- The key order of the first sort in `detect_all_errors`:
`all_errors.sort(key=lambda x: x.get("start_pos", 0))`. -/
def startLE (x y : ErrorRecord) : Prop := x.start_pos ≤ y.start_pos

instance : DecidableRel startLE := fun x y => by unfold startLE; infer_instance

instance : IsTotal ErrorRecord startLE := ⟨fun a b => Nat.le_total a.start_pos b.start_pos⟩

instance : IsTrans ErrorRecord startLE := ⟨fun _ _ _ h1 h2 => Nat.le_trans h1 h2⟩

/-- The scan loop of `filter_overlapping_errors`.  `acc` is the Python
list `filtered` in reverse order (its head is the most recently appended
record), `lastEnd` is the Python `last_end` (initially `-1`, hence `Int`).
The branch reading `filtered[-1]` with `filtered` empty would be an
`IndexError` in Python; it is unreachable because `last_end = -1` and
every `start_pos` is nonnegative, and is modelled as a skip. -/
def filter_go : List ErrorRecord → List ErrorRecord → Int → List ErrorRecord
  | [], acc, _ => acc.reverse
  | e :: rest, [], lastEnd =>
    if (e.start_pos : Int) ≥ lastEnd then
      filter_go rest [e] (e.end_pos : Int)
    else
      filter_go rest [] lastEnd
  | e :: rest, last :: accTail, lastEnd =>
    if (e.start_pos : Int) ≥ lastEnd then
      filter_go rest (e :: last :: accTail) (e.end_pos : Int)
    else if e.confidence > last.confidence then
      filter_go rest (e :: accTail) (e.end_pos : Int)
    else
      filter_go rest (last :: accTail) lastEnd

/-- `AdvancedErrorDetector.filter_overlapping_errors`. -/
def filter_overlapping_errors (errors : List ErrorRecord) : List ErrorRecord :=
  if errors.isEmpty then errors
  else filter_go (List.insertionSort startConfLE errors) [] (-1)

/-- The no-overlap relation on consecutive retained records. -/
def noOverlap (x y : ErrorRecord) : Prop := x.end_pos ≤ y.start_pos

/-- Example candidate `[0, 5)` with confidence 0.6 (word-choice shaped). -/
def exampleOverlapA : ErrorRecord := ⟨.word_choice, 0, 5, .medium, deci 3 5⟩

/-- Example candidate `[2, 6)` with confidence 0.9 (spelling shaped); it
overlaps `exampleOverlapA`. -/
def exampleOverlapB : ErrorRecord := ⟨.spelling, 2, 6, .medium, deci 9 10⟩

/-- Python regex `\w` for the ASCII texts handled here: letters, digits
and underscore. -/
def isWordChar (c : Char) : Bool := c.isAlphanum || c == '_'

/-- Python `\s` / `str.strip` whitespace (ASCII): space, tab, newline,
carriage return, vertical tab, form feed. -/
def isSpaceChar (c : Char) : Bool :=
  c == ' ' || c == '\t' || c == '\n' || c == '\r' || c == '\x0b' || c == '\x0c'

/-- Lowercase a text character-wise (Python `str.lower` on ASCII). -/
def lowerText (t : List Char) : List Char := t.map Char.toLower

/-- Python `text.find(sub)` restricted to success: index of the first
occurrence of `sub` in `t`, if any. -/
def firstIdxOfSeq (sub t : List Char) : Option Nat :=
  (List.range (t.length + 1)).find? (fun i => sub.isPrefixOf (t.drop i))

/-- Python `str.__contains__` (`sub in t`). -/
def containsSeq (sub t : List Char) : Bool := (firstIdxOfSeq sub t).isSome

/-- Fuelled worker for `splitOnSeq`; the fuel `t.length + 1` always
suffices because each step removes at least `sep.length ≥ 1` characters. -/
def splitOnSeqAux (sep : List Char) : Nat → List Char → List (List Char)
  | 0, t => [t]
  | fuel + 1, t =>
    match firstIdxOfSeq sep t with
    | none => [t]
    | some i => t.take i :: splitOnSeqAux sep fuel (t.drop (i + sep.length))

/-- Python `text.split(sep)` for a nonempty separator: split on every
non-overlapping occurrence of `sep`, keeping empty pieces. -/
def splitOnSeq (sep t : List Char) : List (List Char) :=
  splitOnSeqAux sep (t.length + 1) t

/-- Python `str.strip()`: remove leading and trailing whitespace. -/
def stripText (t : List Char) : List Char :=
  ((t.dropWhile isSpaceChar).reverse.dropWhile isSpaceChar).reverse

/-- Fuelled worker for `splitOnClassRuns`; fuel `t.length + 1` always
suffices because each recursive step removes at least one class
character. -/
def splitOnClassRunsAux (isC : Char → Bool) : Nat → List Char → List (List Char)
  | 0, t => [t.takeWhile (fun c => !isC c)]
  | fuel + 1, t =>
    let piece := t.takeWhile (fun c => !isC c)
    let rest := t.dropWhile (fun c => !isC c)
    if rest.isEmpty then [piece]
    else piece :: splitOnClassRunsAux isC fuel (rest.dropWhile isC)

/-- Python `re.split(r'[C]+', text)` for a character class `isC`:
pieces between maximal runs of class characters, keeping empty pieces at
the ends. -/
def splitOnClassRuns (isC : Char → Bool) (t : List Char) : List (List Char) :=
  splitOnClassRunsAux isC (t.length + 1) t

/-- Python `str.split()` (no separator): whitespace-run split with empty
pieces discarded. -/
def pySplitWs (t : List Char) : List (List Char) :=
  (splitOnClassRuns isSpaceChar t).filter (fun p => !p.isEmpty)

/-- Fuelled worker for `wordRuns`; fuel `t.length + 1` always suffices
because each step consumes at least one character. -/
def wordRunsAux : Nat → List Char → Nat → List (Nat × Nat × List Char)
  | 0, _, _ => []
  | _ + 1, [], _ => []
  | fuel + 1, c :: rest, i =>
    if isWordChar c then
      let run := (c :: rest).takeWhile isWordChar
      (i, i + run.length, run) ::
        wordRunsAux fuel ((c :: rest).dropWhile isWordChar) (i + run.length)
    else
      wordRunsAux fuel rest (i + 1)

/-- The maximal `\w`-runs of a text with their half-open positions and
contents: exactly the matches of `re.finditer(r'\b\w+\b', text)`. -/
def wordRuns (t : List Char) : List (Nat × Nat × List Char) :=
  wordRunsAux (t.length + 1) t 0

/-- Fuelled worker for `distinctInOrder`; fuel `l.length` suffices since
every step removes the head. -/
def distinctInOrderAux : Nat → List (List Char) → List (List Char)
  | 0, _ => []
  | _ + 1, [] => []
  | fuel + 1, w :: ws => w :: distinctInOrderAux fuel (ws.filter (fun v => v ≠ w))

/-- First-occurrence-preserving deduplication (iteration order of a
Python dict/`Counter` built by insertion). -/
def distinctInOrder (l : List (List Char)) : List (List Char) :=
  distinctInOrderAux l.length l

/-- Number of occurrences of `w` in `ws` (Python `Counter` lookup). -/
def countOcc (w : List Char) (ws : List (List Char)) : Nat :=
  ws.countP (fun v => v = w)

/-- Abstract syntax of the regular expressions used by the detectors:
single-character classes, greedy Kleene star of a character class (the
only starred sub-patterns in the catalog are character classes),
concatenation, prioritized alternation, the word boundary `\b` and the
end anchor `$`. -/
inductive RePat where
  | cls (f : Char → Bool)
  | star (f : Char → Bool)
  | seq (p q : RePat)
  | alt (p q : RePat)
  | wb
  | eos

/-- Is the character at index `i` (if any) a word character? -/
def wordCharAt (t : List Char) (i : Nat) : Bool :=
  match t.get? i with
  | some c => isWordChar c
  | none => false

/-- Python `\b`: the `\w`-ness changes between positions `pos - 1` and
`pos` (out-of-range counts as non-word). -/
def wordBoundaryAt (t : List Char) (pos : Nat) : Bool :=
  (if pos = 0 then false else wordCharAt t (pos - 1)) != wordCharAt t pos

/-- Python `$` (no MULTILINE): end of text, or just before a final
newline. -/
def atDollar (t : List Char) : Nat → Bool := fun pos =>
  pos = t.length || (pos + 1 = t.length && t.get? pos == some '\n')

/-- All candidate end positions of a match of `p` starting at `pos`, in
the backtracking priority order of Python's `re` (greedy star, left
alternative first).  The head of this list is the end Python reports. -/
def matchEnds : RePat → List Char → Nat → List Nat
  | .cls f, t, pos =>
    match t.get? pos with
    | some c => if f c then [pos + 1] else []
    | none => []
  | .star f, t, pos =>
    let k := ((t.drop pos).takeWhile f).length
    (List.range (k + 1)).reverse.map (fun j => pos + j)
  | .seq p q, t, pos => (matchEnds p t pos).flatMap (fun m => matchEnds q t m)
  | .alt p q, t, pos => matchEnds p t pos ++ matchEnds q t pos
  | .wb, t, pos => if wordBoundaryAt t pos then [pos] else []
  | .eos, t, pos => if atDollar t pos then [pos] else []

/-- The end of the match of `p` at `pos`, if any (first success in
backtracking order). -/
def reMatchEnd (p : RePat) (t : List Char) (pos : Nat) : Option Nat :=
  (matchEnds p t pos).head?

/-- Fuelled scan loop of `re.finditer`: try each start position left to
right, emit the match found there, continue after its end (at least one
position further).  Fuel `t.length + 1 - pos` suffices. -/
def finditerAux (p : RePat) (t : List Char) : Nat → Nat → List (Nat × Nat)
  | 0, _ => []
  | fuel + 1, pos =>
    if pos > t.length then []
    else
      match reMatchEnd p t pos with
      | some e => (pos, e) :: finditerAux p t fuel (max e (pos + 1))
      | none => finditerAux p t fuel (pos + 1)

/-- Python `re.finditer(p, text)`: the non-overlapping matches of `p`,
scanning left to right. -/
def re_finditer (p : RePat) (t : List Char) : List (Nat × Nat) :=
  finditerAux p t (t.length + 1) 0

/-- Character class matching a single given character case-insensitively
(for patterns compiled with `re.IGNORECASE`; `c` is given lowercase). -/
def ciChar (c : Char) : Char → Bool := fun x => x.toLower == c

/-- Character class matching a single given character exactly. -/
def csChar (c : Char) : Char → Bool := fun x => x == c

/-- Epsilon pattern (matches the empty string): star of the empty class. -/
def reEps : RePat := .star (fun _ => false)

/-- Sequence of a list of patterns (empty list is epsilon). -/
def reSeqList : List RePat → RePat
  | [] => reEps
  | [p] => p
  | p :: ps => .seq p (reSeqList ps)

/-- Case-insensitive literal (the string is given lowercase). -/
def reLitCI (s : List Char) : RePat := reSeqList (s.map (fun c => .cls (ciChar c)))

/-- Prioritized alternation of a list of patterns (left first; the empty
list, never used, falls back to epsilon). -/
def reAltList : List RePat → RePat
  | [] => reEps
  | [p] => p
  | p :: ps => .alt p (reAltList ps)

/-- `\s+` as a pattern. -/
def reSpacePlus : RePat := .seq (.cls isSpaceChar) (.star isSpaceChar)

/-- `\bLIT\b` case-insensitively: the shape of every spelling-table,
redundant-phrase and word-repetition search pattern. -/
def reWordCI (s : List Char) : RePat :=
  .seq .wb (.seq (reLitCI s) .wb)


/-- The keys of `spelling_corrections`, in insertion order.  The
corrections themselves only feed the display-only suggestion text. -/
def spelling_words : List (List Char) :=
  ["alot", "cant", "dont", "doesnt", "didnt", "couldnt", "shouldnt",
   "wouldnt", "wont", "isnt", "wasnt", "werent", "havent", "hasnt",
   "hadnt", "youre", "youve", "youll", "youd", "hes", "shes", "weve",
   "wed", "theyd", "theyve", "thats", "whats", "wheres", "hows", "whos",
   "whens", "whys",
   "recieve", "seperate", "definately", "occured", "begining", "beleive",
   "acheive", "neccessary", "accomodate", "embarass", "existance",
   "independant", "maintainance", "occassion", "priviledge", "recomend",
   "succesful", "tommorrow", "untill", "wierd", "goverment", "enviroment",
   "arguement", "judgement", "knowlege", "rythm", "speach", "writting",
   "grammer"].map String.toList

/-- `detect_spelling_errors`: case-insensitive whole-word matches of each
known misspelling; confidence 0.9, severity medium. -/
def detect_spelling_errors (t : List Char) : List ErrorRecord :=
  spelling_words.flatMap (fun w =>
    (re_finditer (reWordCI w) t).map (fun m =>
      ⟨.spelling, m.1, m.2, .medium, deci 9 10⟩))

/-- `[^.!?]` as a character class. -/
def notSentEnd (c : Char) : Bool := !(c == '.' || c == '!' || c == '?')

/-- The `grammar_patterns` table: each regex (all compiled with
`re.IGNORECASE`) with its severity.  Note the precedence of the modal
pattern: the alternation spans the whole pattern, so only `could of`
carries the leading `\b` and only `might of` the trailing one, exactly as
in `r"\bcould of|should of|would of|must of|might of\b"`. -/
def grammarPatterns : List (RePat × Severity) :=
  [ (reSeqList [.wb,
      reAltList [reLitCI "he".toList, reLitCI "she".toList, reLitCI "it".toList],
      reSpacePlus,
      reAltList [reLitCI "are".toList, reLitCI "were".toList], .wb], .high),
    (reSeqList [.wb,
      reAltList [reLitCI "they".toList, reLitCI "we".toList, reLitCI "you".toList],
      reSpacePlus,
      reAltList [reLitCI "is".toList, reLitCI "was".toList], .wb], .high),
    (reAltList
      [ .seq .wb (reLitCI "could of".toList),
        reLitCI "should of".toList,
        reLitCI "would of".toList,
        reLitCI "must of".toList,
        .seq (reLitCI "might of".toList) .wb], .high),
    (reAltList
      [ reSeqList [.wb, reLitCI "don't".toList, reSpacePlus,
          .star isWordChar, reLitCI "n't".toList, .wb],
        reSeqList [.wb, reLitCI "can't".toList, reSpacePlus,
          .star isWordChar, reLitCI "n't".toList, .wb]], .medium),
    (reWordCI "different than".toList, .medium),
    (reSeqList [.wb,
      reAltList [reLitCI "because".toList, reLitCI "since".toList,
        reLitCI "although".toList, reLitCI "while".toList, reLitCI "if".toList],
      reSpacePlus, .star notSentEnd, .cls (csChar '.'),
      .star isSpaceChar, .cls Char.isAlpha], .medium) ]

/-- `detect_grammar_errors`: pattern table matches; confidence 0.8. -/
def detect_grammar_errors (t : List Char) : List ErrorRecord :=
  grammarPatterns.flatMap (fun ps =>
    (re_finditer ps.1 t).map (fun m =>
      ⟨.grammar, m.1, m.2, ps.2, deci 4 5⟩))

/-- `[.!?]` as a character class. -/
def isSentEnd (c : Char) : Bool := c == '.' || c == '!' || c == '?'

/-- The `punctuation_patterns` table (compiled without `re.IGNORECASE`).
The fourth pattern is the source text `[a-zA-Z]\s*$$[^)]*$$\s*[a-zA-Z]`,
whose two `$$` are two end anchors each. -/
def punctuationPatterns : List (RePat × Severity) :=
  [ (reSeqList [.cls isSentEnd, .cls isSentEnd, .star isSentEnd], .low),
    (.seq (.cls (fun c => isSentEnd c || c == ',' || c == ';' || c == ':'))
       (.cls Char.isAlpha), .medium),
    (.seq reSpacePlus (.cls (fun c => c == ',' || c == ';' || c == ':')), .low),
    (reSeqList [.cls Char.isAlpha, .star isSpaceChar, .eos, .eos,
      .star (fun c => !(c == ')')), .eos, .eos, .star isSpaceChar,
      .cls Char.isAlpha], .low) ]

/-- `detect_punctuation_errors`: pattern table matches; confidence 0.8. -/
def detect_punctuation_errors (t : List Char) : List ErrorRecord :=
  punctuationPatterns.flatMap (fun ps =>
    (re_finditer ps.1 t).map (fun m =>
      ⟨.punctuation, m.1, m.2, ps.2, deci 4 5⟩))

/-- The keys of `word_choice_errors`, in insertion order.  Keys holding
an apostrophe can never equal a `\w+` word and thus never fire, exactly
as in the source. -/
def wordChoiceWords : List (List Char) :=
  ["affect", "effect", "accept", "except", "than", "then", "there",
   "their", "they're", "your", "you're", "its", "it's", "whose", "who's",
   "weather", "whether", "lose", "loose", "principal", "principle",
   "complement", "compliment", "desert", "dessert", "advice", "advise",
   "breath", "breathe", "choose", "chose"].map String.toList

/-- `detect_word_choice_errors`: every whole-word occurrence of every
confusable key; confidence 0.6, severity medium.  `word_positions` maps
each lowercased `\w+` run to its occurrences in scan order, and the
detector walks the key list looking each key up. -/
def detect_word_choice_errors (t : List Char) : List ErrorRecord :=
  let runs := wordRuns t
  wordChoiceWords.flatMap (fun w =>
    (runs.filter (fun r => lowerText r.2.2 == w)).map (fun r =>
      ⟨.word_choice, r.1, r.2.1, .medium, deci 3 5⟩))

/-- The `style_patterns` table (all `re.IGNORECASE`, all severity low). -/
def stylePatterns : List RePat :=
  [ reSeqList [.wb, reLitCI "very".toList, reSpacePlus, reLitCI "very".toList, .wb],
    reSeqList [.wb, reLitCI "that".toList, reSpacePlus, reLitCI "that".toList, .wb],
    reWordCI "in order to".toList,
    reWordCI "due to the fact that".toList ]

/-- The `common_words` stop list of `detect_word_repetition`. -/
def common_words : List (List Char) :=
  ["the", "a", "an", "and", "or", "but", "in", "on", "at", "to", "for",
   "of", "with", "by", "is", "are", "was", "were", "be", "been", "have",
   "has", "had", "do", "does", "did", "will", "would", "could", "should",
   "this", "that", "these", "those", "i", "you", "he", "she", "it", "we",
   "they"].map String.toList

/-- `detect_word_repetition`: any lowercased word longer than 4
characters, outside the stop list, occurring more than 5 times, flagged
once at its first whole-word occurrence; confidence 0.6. -/
def detect_word_repetition (t : List Char) : List ErrorRecord :=
  let ws := (wordRuns t).map (fun r => lowerText r.2.2)
  (distinctInOrder ws).flatMap (fun w =>
    if w.length > 4 && !(common_words.contains w) && countOcc w ws > 5 then
      match re_finditer (reWordCI w) t with
      | m :: _ => [⟨.style, m.1, m.2, .low, deci 3 5⟩]
      | [] => []
    else [])

/-- The passive-voice pattern
`\b(is|are|was|were|be|been|being)\s+\w*ed\b` (`re.IGNORECASE`). -/
def passivePattern : RePat :=
  reSeqList [.wb,
    reAltList [reLitCI "is".toList, reLitCI "are".toList, reLitCI "was".toList,
      reLitCI "were".toList, reLitCI "be".toList, reLitCI "been".toList,
      reLitCI "being".toList],
    reSpacePlus, .star isWordChar, reLitCI "ed".toList, .wb]

/-- The guard `re.match(r'\s+by\b', following, re.IGNORECASE)` applied to
the 10-character window after a passive match. -/
def byAgentPattern : RePat :=
  reSeqList [.cls isSpaceChar, .star isSpaceChar, reLitCI "by".toList, .wb]

/-- `detect_passive_voice`: passive matches not followed by a "by" agent
phrase within the next 10 characters; confidence 0.5. -/
def detect_passive_voice (t : List Char) : List ErrorRecord :=
  (re_finditer passivePattern t).flatMap (fun m =>
    let following := (t.drop m.2).take 10
    if (reMatchEnd byAgentPattern following 0).isSome then []
    else [⟨.style, m.1, m.2, .low, deci 1 2⟩])

/-- `detect_style_issues`: pattern table (confidence 0.7), then word
repetition, then passive voice. -/
def detect_style_issues (t : List Char) : List ErrorRecord :=
  (stylePatterns.flatMap (fun p =>
    (re_finditer p t).map (fun m => (⟨.style, m.1, m.2, .low, deci 7 10⟩ : ErrorRecord))))
  ++ detect_word_repetition t
  ++ detect_passive_voice t

/-- The `transition_words` list of `detect_coherence_issues`. -/
def transition_words : List (List Char) :=
  ["however", "therefore", "furthermore", "moreover", "consequently",
   "in addition", "similarly", "likewise", "in contrast",
   "on the other hand", "first", "second", "third", "finally",
   "in conclusion", "to summarize"].map String.toList

/-- The stripped nonempty blank-line paragraphs of a text. -/
def paragraphsOf (t : List Char) : List (List Char) :=
  ((splitOnSeq ['\n', '\n'] t).map stripText).filter (fun p => !p.isEmpty)

/-- The lowercased first sentence of a paragraph
(`paragraph.split('.')[0].lower()`). -/
def firstSentenceOf (p : List Char) : List Char :=
  lowerText (splitOnSeq ['.'] p).headI

/-- Does a qualifying coherence issue arise for this paragraph (placed
after the first)? -/
def coherenceFlagged (p : List Char) : Bool :=
  !(transition_words.any (fun w => containsSeq w (firstSentenceOf p))) && p.length > 50

/-- `detect_coherence_issues`: for every paragraph after the first whose
length exceeds 50 and whose first sentence holds no transition word,
an issue anchored at `text.find(paragraph)` spanning the first sentence;
confidence 0.6. -/
def detect_coherence_issues (t : List Char) : List ErrorRecord :=
  if (paragraphsOf t).length ≤ 1 then []
  else
    ((paragraphsOf t).drop 1).flatMap (fun p =>
      if coherenceFlagged p then
        match firstIdxOfSeq p t with
        | some s => [⟨.coherence, s, s + (firstSentenceOf p).length, .low, deci 3 5⟩]
        | none => []
      else [])

/-- The `redundant_phrases` list (all matched `\b..\b`,
`re.IGNORECASE`). -/
def redundant_phrases : List (List Char) :=
  ["free gift", "future plans", "past history", "advance planning",
   "close proximity", "final outcome", "unexpected surprise",
   "true fact"].map String.toList

/-- `detect_redundancy_issues`: confidence 0.8, severity low. -/
def detect_redundancy_issues (t : List Char) : List ErrorRecord :=
  redundant_phrases.flatMap (fun w =>
    (re_finditer (reWordCI w) t).map (fun m =>
      ⟨.redundancy, m.1, m.2, .low, deci 4 5⟩))

/-- The stripped nonempty `[.!?]+`-sentences of a text. -/
def sentencesOf (t : List Char) : List (List Char) :=
  ((splitOnClassRuns isSentEnd t).map stripText).filter (fun p => !p.isEmpty)

/-- `detect_clarity_issues`: sentences of more than 40 whitespace-split
words, anchored at `text.find(sentence)`; confidence 0.7. -/
def detect_clarity_issues (t : List Char) : List ErrorRecord :=
  (sentencesOf t).flatMap (fun s =>
    if (pySplitWs s).length > 40 then
      match firstIdxOfSeq s t with
      | some i => [⟨.clarity, i, i + s.length, .medium, deci 7 10⟩]
      | none => []
    else [])

/-- The candidate list built by `detect_all_errors` before sorting:
the eight detectors concatenated in source order. -/
def all_candidates (t : List Char) : List ErrorRecord :=
  detect_spelling_errors t ++ detect_grammar_errors t ++
  detect_punctuation_errors t ++ detect_word_choice_errors t ++
  detect_style_issues t ++ detect_coherence_issues t ++
  detect_redundancy_issues t ++ detect_clarity_issues t

/-- `AdvancedErrorDetector.detect_all_errors`: concatenate all detector
outputs, stable-sort by start offset, then resolve overlaps. -/
def detect_all_errors (t : List Char) : List ErrorRecord :=
  filter_overlapping_errors (List.insertionSort startLE (all_candidates t))

/-- Module-level `detect_errors` (the singleton construction carries no
state that affects results). -/
def detect_errors (t : List Char) : List ErrorRecord := detect_all_errors t



/-- The essay features consumed by the rule-based scorers, as computed by
`EssayScoringModel.analyze_essay_features` in `essay_model.py`.  Features
the scorers never read (`unique_words`, `body_paragraph_count`,
`avg_sentences_per_paragraph`, `academic_vocabulary_count`,
`sentence_count`) are omitted. -/
structure EssayFeatures where
  word_count : Nat
  paragraph_count : Nat
  avg_words_per_sentence : ℚ
  vocabulary_diversity : ℚ
  complex_sentence_ratio : ℚ
  academic_vocabulary_ratio : ℚ
  transition_count : Nat
  has_introduction : Bool
  has_conclusion : Bool
  has_thesis : Bool
deriving Repr

/-- The `academic_words` set of `count_academic_vocabulary`. -/
def academic_words : List (List Char) :=
  ["analyze", "evaluate", "demonstrate", "illustrate", "examine",
   "investigate", "establish", "determine", "significant", "substantial",
   "comprehensive", "fundamental", "essential", "crucial", "critical",
   "perspective", "approach", "methodology", "framework", "concept",
   "theory", "hypothesis", "evidence", "research", "study",
   "analysis", "conclusion", "argument", "thesis", "claim",
   "furthermore", "moreover", "however", "nevertheless", "consequently",
   "therefore", "thus", "hence", "accordingly", "subsequently"].map String.toList

/-- The `transitions` list of `EssayScoringModel.count_transitions`
(distinct from the detector's `transition_words`). -/
def model_transitions : List (List Char) :=
  ["first", "second", "third", "next", "then", "finally",
   "however", "furthermore", "moreover", "additionally",
   "in addition", "similarly", "likewise", "in contrast",
   "on the other hand", "meanwhile", "consequently",
   "therefore", "thus", "as a result", "in conclusion"].map String.toList

/-- The `intro_indicators` of `analyze_structure`. -/
def intro_indicators : List (List Char) :=
  ["in this essay", "this essay will", "i will argue",
   "the author suggests", "this paper", "the purpose of"].map String.toList

/-- The `conclusion_indicators` of `analyze_structure`. -/
def conclusion_indicators : List (List Char) :=
  ["in conclusion", "to conclude", "in summary",
   "therefore", "thus", "overall", "finally"].map String.toList

/-- The `thesis_indicators` of `detect_thesis`. -/
def thesis_indicators : List (List Char) :=
  ["argue", "claim", "believe", "suggest", "propose",
   "maintain", "assert", "contend", "demonstrate",
   "prove", "show", "will discuss", "will examine"].map String.toList

/-- `EssayScoringModel.detect_thesis`: thesis verbs in the first
newline-paragraph (or the first 500 characters when there is none). -/
def detect_thesis (t : List Char) : Bool :=
  let first_paragraph :=
    if containsSeq ['\n'] t then (splitOnSeq ['\n'] t).headI else t.take 500
  thesis_indicators.any (fun ind => containsSeq ind (lowerText first_paragraph))

/-- `EssayScoringModel.analyze_essay_features` (fields the scorers read). -/
def analyze_essay_features (t : List Char) : EssayFeatures :=
  let words := pySplitWs t
  let sentences := sentencesOf t
  let paragraphs := paragraphsOf t
  let alphaWords := (words.filter (fun w => w.all Char.isAlpha)).map lowerText
  let uniqueAlpha := (distinctInOrder alphaWords).length
  let complexCount := (sentences.filter (fun s => (pySplitWs s).length > 15)).length
  let academicCount := words.countP (fun w => academic_words.contains (lowerText w))
  let lowT := lowerText t
  { word_count := words.length
    paragraph_count := paragraphs.length
    avg_words_per_sentence := (words.length : ℚ) / (max sentences.length 1 : Nat)
    vocabulary_diversity := (uniqueAlpha : ℚ) / (max words.length 1 : Nat)
    complex_sentence_ratio := (complexCount : ℚ) / (max sentences.length 1 : Nat)
    academic_vocabulary_ratio := (academicCount : ℚ) / (max words.length 1 : Nat)
    transition_count := model_transitions.countP (fun w => containsSeq w lowT)
    has_introduction :=
      match paragraphs with
      | [] => false
      | p :: _ => intro_indicators.any (fun ind => containsSeq ind (lowerText p))
    has_conclusion :=
      match paragraphs with
      | [] => false
      | ps => conclusion_indicators.any (fun ind =>
          containsSeq ind (lowerText (ps.getLast!)))
    has_thesis :=
      match paragraphs with
      | [] => false
      | _ => detect_thesis t }

/-- The `evidence_indicators` of `score_content_rule_based`. -/
def evidence_indicators : List (List Char) :=
  ["for example", "according to", "the text states", "evidence shows",
   "the author argues", "research shows", "studies indicate"].map String.toList

/-- `ComprehensiveEssayAnalyzer.score_content_rule_based`. -/
def score_content_rule_based (essay prompt : List Char) (features : EssayFeatures) : ℚ :=
  let wc := features.word_count
  let s1 : ℚ := 5.0 +
    (if wc ≥ 300 then 1.0 else if wc ≥ 200 then 0.5 else if wc < 100 then -1.0 else 0)
  let evidence_count := evidence_indicators.countP
    (fun ind => containsSeq ind (lowerText essay))
  let s2 := s1 + min ((evidence_count : ℚ) * 0.5) 2.0
  let s3 := s2 + (if features.has_thesis then 1.0 else 0)
  let prompt_keywords := distinctInOrder ((wordRuns (lowerText prompt)).map (fun r => r.2.2))
  let essay_keywords := distinctInOrder ((wordRuns (lowerText essay)).map (fun r => r.2.2))
  let overlap := (prompt_keywords.filter (fun w => essay_keywords.contains w)).length
  let relevance : ℚ := (overlap : ℚ) / (max prompt_keywords.length 1 : Nat)
  min (s3 + relevance * 2.0) 10.0

/-- `ComprehensiveEssayAnalyzer.score_organization_rule_based`. -/
def score_organization_rule_based (essay : List Char) (features : EssayFeatures) : ℚ :=
  let pc := features.paragraph_count
  let s1 : ℚ := 5.0 +
    (if pc ≥ 4 then 1.5 else if pc ≥ 3 then 1.0 else if pc < 2 then -1.0 else 0)
  let s2 := s1 + (if features.has_introduction then 1.0 else 0)
  let s3 := s2 + (if features.has_conclusion then 1.0 else 0)
  let s4 := s3 + min ((features.transition_count : ℚ) * 0.3) 1.5
  let s5 := s4 + (if (splitOnClassRuns isSentEnd essay).length > 3 then 0.5 else 0)
  min s5 10.0

/-- `ComprehensiveEssayAnalyzer.score_language_rule_based`. -/
def score_language_rule_based (features : EssayFeatures) : ℚ :=
  let vd := features.vocabulary_diversity
  let s1 : ℚ := 5.0 +
    (if vd > 0.7 then 1.5 else if vd > 0.5 then 1.0 else if vd < 0.3 then -1.0 else 0)
  let aw := features.avg_words_per_sentence
  let s2 := s1 +
    (if 12 ≤ aw ∧ aw ≤ 20 then 1.0 else if aw > 25 then -0.5 else if aw < 8 then -0.5 else 0)
  let s3 := s2 + min (features.academic_vocabulary_ratio * 10) 2.0
  let s4 := s3 + min (features.complex_sentence_ratio * 2) 1.0
  min s4 10.0

/-- Conventions deduction per error severity. -/
def severity_deduction : Severity → ℚ
  | .high => 0.5
  | .medium => 0.3
  | .low => 0.1

/-- `ComprehensiveEssayAnalyzer.score_conventions_rule_based`: start at
8.0, subtract per detected error by severity, floor at 1.0. -/
def score_conventions_rule_based (essay : List Char) : ℚ :=
  max ((detect_errors essay).foldl (fun s e => s - severity_deduction e.severity) 8.0) 1.0

/-- The `level_factor` lookup `{"beginner": 1.1, "intermediate": 1.0,
"advanced": 0.9}.get(level, 1.0)`. -/
def level_factor (level : List Char) : ℚ :=
  if level = "beginner".toList then 1.1
  else if level = "intermediate".toList then 1.0
  else if level = "advanced".toList then 0.9
  else 1.0

/-- `ComprehensiveEssayAnalyzer.get_rule_based_scores`. -/
def get_rule_based_scores (essay prompt level : List Char) : AspectScores :=
  let features := analyze_essay_features essay
  let f := level_factor level
  let content := min 10.0 (score_content_rule_based essay prompt features * f)
  let organization := min 10.0 (score_organization_rule_based essay features * f)
  let language := min 10.0 (score_language_rule_based features * f)
  let conventions := min 10.0 (score_conventions_rule_based essay)
  let overall := (content + organization + language + conventions) / 4
  ⟨overall, content, organization, language, conventions⟩

/-- The score pipeline of `analyze_essay_comprehensive` (steps 2-6):
ML scores (with the neutral-default fallback), rule-based scores,
fusion, error detection, error-based adjustment.  The remaining steps
(statistics, feedback, structure report, grouping) read the adjusted
scores but never change them. -/
def analyze_scores (essay prompt level : List Char)
    (mlResult : Option AspectScores) : AspectScores :=
  adjust_scores_for_errors
    (combine_scores (get_ml_scores mlResult) (get_rule_based_scores essay prompt level))
    (detect_errors essay)



/-- Counterexample text for the record invariant: one short paragraph,
then a 62-character paragraph starting with a period, whose first
sentence (`paragraph.split('.')[0]`) is empty. -/
def exampleDegenText : List Char :=
  "A\n\n. zzzzzzzzzzzzzzzzzzzzzzzzzzzzzzzzzzzzzzzzzzzzzzzzzzzzzzzzzzzz".toList

/-- A 60-character paragraph without transition words. -/
def exampleDupPara : List Char :=
  "zzzzzzzzzzzzzzzzzzzzzzzzzzzzzzzzzzzzzzzzzzzzzzzzzzzzzzzzzzzz".toList

/-- Two identical qualifying paragraphs: the second paragraph's text also
occurs at offset 0, ahead of the paragraph itself. -/
def exampleDupParaText : List Char :=
  "zzzzzzzzzzzzzzzzzzzzzzzzzzzzzzzzzzzzzzzzzzzzzzzzzzzzzzzzzzzz\n\nzzzzzzzzzzzzzzzzzzzzzzzzzzzzzzzzzzzzzzzzzzzzzzzzzzzzzzzzzzzz".toList

/-- A two-paragraph essay whose second paragraph exceeds 50 characters,
holds no transition word in its first sentence, and occurs nowhere
earlier in the text. -/
def exampleTwoParaText : List Char :=
  "An essay about Venus.\n\nVenus is a planet and scientists study its atmosphere closely every year.".toList

/-- The second (qualifying) paragraph of `exampleTwoParaText`. -/
def exampleSecondPara : List Char :=
  "Venus is a planet and scientists study its atmosphere closely every year.".toList

-- ==================== theorems ====================

theorem tally_field_spelling (errors : List ErrorRecord) :
    ∀ acc : ErrorCounts, (errors.foldl tally_step acc).spelling =
      acc.spelling + count_category errors .spelling := by
  induction errors with
  | nil => intro acc; simp [count_category]
  | cons e rest ih =>
    intro acc
    rw [List.foldl_cons, ih]
    unfold count_category
    rw [List.countP_cons]
    rcases e with ⟨c, s, en, sev, conf⟩
    cases c <;> simp [tally_step, count_category] <;> omega

theorem tally_field_grammar (errors : List ErrorRecord) :
    ∀ acc : ErrorCounts, (errors.foldl tally_step acc).grammar =
      acc.grammar + count_category errors .grammar := by
  induction errors with
  | nil => intro acc; simp [count_category]
  | cons e rest ih =>
    intro acc
    rw [List.foldl_cons, ih]
    unfold count_category
    rw [List.countP_cons]
    rcases e with ⟨c, s, en, sev, conf⟩
    cases c <;> simp [tally_step, count_category] <;> omega

theorem tally_field_punctuation (errors : List ErrorRecord) :
    ∀ acc : ErrorCounts, (errors.foldl tally_step acc).punctuation =
      acc.punctuation + count_category errors .punctuation := by
  induction errors with
  | nil => intro acc; simp [count_category]
  | cons e rest ih =>
    intro acc
    rw [List.foldl_cons, ih]
    unfold count_category
    rw [List.countP_cons]
    rcases e with ⟨c, s, en, sev, conf⟩
    cases c <;> simp [tally_step, count_category] <;> omega

theorem tally_field_style (errors : List ErrorRecord) :
    ∀ acc : ErrorCounts, (errors.foldl tally_step acc).style =
      acc.style + count_category errors .style := by
  induction errors with
  | nil => intro acc; simp [count_category]
  | cons e rest ih =>
    intro acc
    rw [List.foldl_cons, ih]
    unfold count_category
    rw [List.countP_cons]
    rcases e with ⟨c, s, en, sev, conf⟩
    cases c <;> simp [tally_step, count_category] <;> omega

theorem tally_errors_eq (errors : List ErrorRecord) :
    tally_errors errors =
      ⟨count_category errors .spelling, count_category errors .grammar,
       count_category errors .punctuation, count_category errors .style⟩ := by
  unfold tally_errors
  have h1 := tally_field_spelling errors ⟨0, 0, 0, 0⟩
  have h2 := tally_field_grammar errors ⟨0, 0, 0, 0⟩
  have h3 := tally_field_punctuation errors ⟨0, 0, 0, 0⟩
  have h4 := tally_field_style errors ⟨0, 0, 0, 0⟩
  rcases h : errors.foldl tally_step ⟨0, 0, 0, 0⟩ with ⟨a, b, c, d⟩
  rw [h] at h1 h2 h3 h4
  simp at h1 h2 h3 h4
  simp [h1, h2, h3, h4]

/-- Closed form of `adjust_scores_for_errors` in terms of per-category
counts (shared helper for several claims). -/
theorem adjust_scores_closed_form (scores : AspectScores) (errors : List ErrorRecord) :
    adjust_scores_for_errors scores errors =
      (let n := count_category errors .spelling + count_category errors .grammar +
                count_category errors .punctuation + count_category errors .style
       let s := count_category errors .style
       let conventions :=
         if n > 0 then max (scores.conventions - min ((n : ℚ) * 0.15) 2.5) 1.0
         else scores.conventions
       let language :=
         if s > 3 then max (scores.language - min ((s : ℚ) * 0.1) 1.0) 1.0
         else scores.language
       { scores with
          conventions := conventions, language := language,
          overall := (scores.content + scores.organization + language + conventions) / 4 }) := by
  unfold adjust_scores_for_errors
  rw [tally_errors_eq]

/-- Closed form of `combine_scores` (shared helper): the weight pair used
for an aspect is 0.4/0.6 exactly when some aspect up to and including it
diverges by more than 2.0. -/
theorem combine_scores_closed_form (ml rule : AspectScores) :
    (combine_scores ml rule).content =
      (if |ml.content - rule.content| > 2.0
       then ml.content * 0.4 + rule.content * 0.6
       else ml.content * 0.7 + rule.content * 0.3) ∧
    (combine_scores ml rule).organization =
      (if |ml.content - rule.content| > 2.0 ∨ |ml.organization - rule.organization| > 2.0
       then ml.organization * 0.4 + rule.organization * 0.6
       else ml.organization * 0.7 + rule.organization * 0.3) ∧
    (combine_scores ml rule).language =
      (if |ml.content - rule.content| > 2.0 ∨ |ml.organization - rule.organization| > 2.0 ∨
          |ml.language - rule.language| > 2.0
       then ml.language * 0.4 + rule.language * 0.6
       else ml.language * 0.7 + rule.language * 0.3) ∧
    (combine_scores ml rule).conventions =
      (if |ml.content - rule.content| > 2.0 ∨ |ml.organization - rule.organization| > 2.0 ∨
          |ml.language - rule.language| > 2.0 ∨ |ml.conventions - rule.conventions| > 2.0
       then ml.conventions * 0.4 + rule.conventions * 0.6
       else ml.conventions * 0.7 + rule.conventions * 0.3) ∧
    (combine_scores ml rule).overall =
      ((combine_scores ml rule).content + (combine_scores ml rule).organization +
       (combine_scores ml rule).language + (combine_scores ml rule).conventions) / 4 := by
  by_cases h1 : |ml.content - rule.content| > 2.0 <;>
    by_cases h2 : |ml.organization - rule.organization| > 2.0 <;>
      by_cases h3 : |ml.language - rule.language| > 2.0 <;>
        by_cases h4 : |ml.conventions - rule.conventions| > 2.0 <;>
          simp [combine_scores, h1, h2, h3, h4]

/-- C3: in one call to `combine_scores` the aspects are processed in the
order content, organization, language, conventions with initial weights
model=0.7/rule=0.3; as soon as some aspect has `|model − rule| > 2.0` the
weights become 0.4/0.6 for that aspect and for every later aspect of the
same call and never revert within the call (so if every aspect diverges,
every aspect is combined with 0.4/0.6).  `combine_scores` is a pure
function of its two arguments, so the weights start again at 0.7/0.3 on
each new call. -/
theorem combine_scores_adaptive_weights (ml rule : AspectScores) :
    (combine_scores ml rule).content =
      (if |ml.content - rule.content| > 2.0
       then ml.content * 0.4 + rule.content * 0.6
       else ml.content * 0.7 + rule.content * 0.3) ∧
    (combine_scores ml rule).organization =
      (if |ml.content - rule.content| > 2.0 ∨ |ml.organization - rule.organization| > 2.0
       then ml.organization * 0.4 + rule.organization * 0.6
       else ml.organization * 0.7 + rule.organization * 0.3) ∧
    (combine_scores ml rule).language =
      (if |ml.content - rule.content| > 2.0 ∨ |ml.organization - rule.organization| > 2.0 ∨
          |ml.language - rule.language| > 2.0
       then ml.language * 0.4 + rule.language * 0.6
       else ml.language * 0.7 + rule.language * 0.3) ∧
    (combine_scores ml rule).conventions =
      (if |ml.content - rule.content| > 2.0 ∨ |ml.organization - rule.organization| > 2.0 ∨
          |ml.language - rule.language| > 2.0 ∨ |ml.conventions - rule.conventions| > 2.0
       then ml.conventions * 0.4 + rule.conventions * 0.6
       else ml.conventions * 0.7 + rule.conventions * 0.3) ∧
    (combine_scores ml rule).overall =
      ((combine_scores ml rule).content + (combine_scores ml rule).organization +
       (combine_scores ml rule).language + (combine_scores ml rule).conventions) / 4 :=
  combine_scores_closed_form ml rule

/-- C4: `adjust_scores_for_errors` counts only errors in the categories
spelling, grammar, punctuation and style; when that total `n` is positive
it subtracts `min(0.15·n, 2.5)` from conventions flooring at 1.0; when the
style count `s` exceeds 3 it additionally subtracts `min(0.1·s, 1.0)` from
language flooring at 1.0; the overall score is recomputed as the mean of
the four post-penalty aspect scores. -/
theorem adjust_scores_error_penalties (scores : AspectScores) (errors : List ErrorRecord) :
    (adjust_scores_for_errors scores errors).conventions =
      (if 0 < count_category errors .spelling + count_category errors .grammar +
            count_category errors .punctuation + count_category errors .style
       then max (scores.conventions -
              min (((count_category errors .spelling + count_category errors .grammar +
                     count_category errors .punctuation + count_category errors .style : Nat) : ℚ)
                     * 0.15) 2.5) 1.0
       else scores.conventions) ∧
    (adjust_scores_for_errors scores errors).language =
      (if 3 < count_category errors .style
       then max (scores.language - min ((count_category errors .style : ℚ) * 0.1) 1.0) 1.0
       else scores.language) ∧
    (adjust_scores_for_errors scores errors).overall =
      ((adjust_scores_for_errors scores errors).content +
       (adjust_scores_for_errors scores errors).organization +
       (adjust_scores_for_errors scores errors).language +
       (adjust_scores_for_errors scores errors).conventions) / 4 ∧
    (adjust_scores_for_errors scores errors).content = scores.content ∧
    (adjust_scores_for_errors scores errors).organization = scores.organization := by
  rw [adjust_scores_closed_form scores errors]
  refine ⟨rfl, rfl, ?_, rfl, rfl⟩
  rfl

/-- C5 counterexample: with a pre-adjustment conventions score of 0.5 the
empty error list keeps conventions at 0.5, while adding one spelling error
*raises* conventions to the floor 1.0 — so, quantified over every
pre-adjustment score dictionary as the claim is, the adjustment is not
antitone in the error counts. -/
theorem adjust_conventions_not_antitone_low_scores :
    count_category ([] : List ErrorRecord) .spelling ≤
      count_category [exampleSpellingError] .spelling ∧
    count_category ([] : List ErrorRecord) .grammar ≤
      count_category [exampleSpellingError] .grammar ∧
    count_category ([] : List ErrorRecord) .punctuation ≤
      count_category [exampleSpellingError] .punctuation ∧
    count_category ([] : List ErrorRecord) .style ≤
      count_category [exampleSpellingError] .style ∧
    ¬ ((adjust_scores_for_errors exampleScoresLow [exampleSpellingError]).conventions ≤
       (adjust_scores_for_errors exampleScoresLow []).conventions) := by
  refine ⟨by decide, by decide, by decide, by decide, ?_⟩
  norm_num [adjust_scores_for_errors, tally_errors, tally_step,
    exampleScoresLow, exampleSpellingError, deci]

/-- C5 (amended): for every pre-adjustment score dictionary whose
conventions score is at least 1.0 (the floor used by the adjustment, and a
lower bound satisfied by every score dictionary the pipeline actually
passes in), the adjusted conventions score is antitone in the per-category
error counts. -/
theorem adjust_conventions_antitone (scores : AspectScores) (E E2 : List ErrorRecord)
    (hconv : 1 ≤ scores.conventions)
    (hs : count_category E .spelling ≤ count_category E2 .spelling)
    (hg : count_category E .grammar ≤ count_category E2 .grammar)
    (hp : count_category E .punctuation ≤ count_category E2 .punctuation)
    (hst : count_category E .style ≤ count_category E2 .style) :
    (adjust_scores_for_errors scores E2).conventions ≤
      (adjust_scores_for_errors scores E).conventions := by
  rw [adjust_scores_closed_form scores E, adjust_scores_closed_form scores E2]
  simp only
  set n := count_category E .spelling + count_category E .grammar +
    count_category E .punctuation + count_category E .style with hn
  set n2 := count_category E2 .spelling + count_category E2 .grammar +
    count_category E2 .punctuation + count_category E2 .style with hn2
  have hle : n ≤ n2 := by omega
  have hpen : (0 : ℚ) ≤ min ((n2 : ℚ) * 0.15) 2.5 :=
    le_min (by positivity) (by norm_num)
  by_cases h0 : 0 < n
  · rw [if_pos h0, if_pos (lt_of_lt_of_le h0 hle)]
    refine max_le_max (sub_le_sub_left ?_ _) le_rfl
    refine min_le_min ?_ le_rfl
    have hc : (n : ℚ) ≤ (n2 : ℚ) := by exact_mod_cast hle
    exact mul_le_mul_of_nonneg_right hc (by norm_num)
  · rw [if_neg h0]
    by_cases h1 : 0 < n2
    · rw [if_pos h1]
      have e1 : (1.0 : ℚ) = 1 := by norm_num
      rw [e1]
      exact max_le (by linarith) hconv
    · rw [if_neg h1]

/-- C5 witness: the amended antitonicity applied at a concrete input. -/
theorem adjust_conventions_antitone_witness :
    1 ≤ exampleScoresMid.conventions ∧
    count_category ([] : List ErrorRecord) .spelling ≤
      count_category [exampleSpellingError] .spelling ∧
    (adjust_scores_for_errors exampleScoresMid [exampleSpellingError]).conventions ≤
      (adjust_scores_for_errors exampleScoresMid []).conventions :=
  ⟨by norm_num [exampleScoresMid], by decide,
   adjust_conventions_antitone exampleScoresMid [] [exampleSpellingError]
     (by norm_num [exampleScoresMid]) (by decide) (by decide) (by decide) (by decide)⟩

/-- C10: `adjust_scores_for_errors` never changes the content and
organization scores; it leaves language unchanged when the style count is
at most 3, and conventions unchanged when no error has one of the four
counted categories. -/
theorem adjust_scores_frame (scores : AspectScores) (errors : List ErrorRecord) :
    (adjust_scores_for_errors scores errors).content = scores.content ∧
    (adjust_scores_for_errors scores errors).organization = scores.organization ∧
    (count_category errors .style ≤ 3 →
      (adjust_scores_for_errors scores errors).language = scores.language) ∧
    (count_category errors .spelling + count_category errors .grammar +
       count_category errors .punctuation + count_category errors .style = 0 →
      (adjust_scores_for_errors scores errors).conventions = scores.conventions) := by
  rw [adjust_scores_closed_form scores errors]
  refine ⟨rfl, rfl, ?_, ?_⟩
  · intro h
    simp only
    rw [if_neg (by omega)]
  · intro h
    simp only
    rw [if_neg (by omega)]

/-- C10 witness: the frame conditions applied at a concrete input whose
single error is a coherence issue (not counted, style count 0). -/
theorem adjust_scores_frame_witness :
    count_category [exampleCoherenceError] .style ≤ 3 ∧
    count_category [exampleCoherenceError] .spelling +
      count_category [exampleCoherenceError] .grammar +
      count_category [exampleCoherenceError] .punctuation +
      count_category [exampleCoherenceError] .style = 0 ∧
    (adjust_scores_for_errors exampleScoresMid [exampleCoherenceError]).language =
      exampleScoresMid.language ∧
    (adjust_scores_for_errors exampleScoresMid [exampleCoherenceError]).conventions =
      exampleScoresMid.conventions :=
  ⟨by decide, by decide,
   (adjust_scores_frame exampleScoresMid [exampleCoherenceError]).2.2.1 (by decide),
   (adjust_scores_frame exampleScoresMid [exampleCoherenceError]).2.2.2 (by decide)⟩

theorem filter_go_nil (acc : List ErrorRecord) (lastEnd : Int) :
    filter_go [] acc lastEnd = acc.reverse := rfl

theorem filter_go_cons_nil (e : ErrorRecord) (rest : List ErrorRecord) (lastEnd : Int) :
    filter_go (e :: rest) [] lastEnd =
      (if (e.start_pos : Int) ≥ lastEnd then filter_go rest [e] (e.end_pos : Int)
       else filter_go rest [] lastEnd) := rfl

theorem filter_go_cons_cons (e last : ErrorRecord) (rest accTail : List ErrorRecord)
    (lastEnd : Int) :
    filter_go (e :: rest) (last :: accTail) lastEnd =
      (if (e.start_pos : Int) ≥ lastEnd then
        filter_go rest (e :: last :: accTail) (e.end_pos : Int)
      else if e.confidence > last.confidence then
        filter_go rest (e :: accTail) (e.end_pos : Int)
      else
        filter_go rest (last :: accTail) lastEnd) := rfl

theorem filter_go_subset :
    ∀ (rest acc : List ErrorRecord) (lastEnd : Int) (x : ErrorRecord),
      x ∈ filter_go rest acc lastEnd → x ∈ rest ∨ x ∈ acc := by
  intro rest
  induction rest with
  | nil =>
    intro acc lastEnd x hx
    rw [filter_go_nil] at hx
    exact Or.inr (List.mem_reverse.mp hx)
  | cons e rest ih =>
    intro acc lastEnd x hx
    cases acc with
    | nil =>
      rw [filter_go_cons_nil] at hx
      by_cases hge : (e.start_pos : Int) ≥ lastEnd
      · rw [if_pos hge] at hx
        rcases ih _ _ x hx with h | h
        · exact Or.inl (List.mem_cons_of_mem _ h)
        · rcases List.mem_cons.mp h with h | h
          · exact Or.inl (h ▸ List.mem_cons_self _ _)
          · exact absurd h (List.not_mem_nil x)
      · rw [if_neg hge] at hx
        rcases ih _ _ x hx with h | h
        · exact Or.inl (List.mem_cons_of_mem _ h)
        · exact absurd h (List.not_mem_nil x)
    | cons last accTail =>
      rw [filter_go_cons_cons] at hx
      by_cases hge : (e.start_pos : Int) ≥ lastEnd
      · rw [if_pos hge] at hx
        rcases ih _ _ x hx with h | h
        · exact Or.inl (List.mem_cons_of_mem _ h)
        · rcases List.mem_cons.mp h with h | h
          · exact Or.inl (h ▸ List.mem_cons_self _ _)
          · exact Or.inr h
      · rw [if_neg hge] at hx
        by_cases hconf : e.confidence > last.confidence
        · rw [if_pos hconf] at hx
          rcases ih _ _ x hx with h | h
          · exact Or.inl (List.mem_cons_of_mem _ h)
          · rcases List.mem_cons.mp h with h | h
            · exact Or.inl (h ▸ List.mem_cons_self _ _)
            · exact Or.inr (List.mem_cons_of_mem _ h)
        · rw [if_neg hconf] at hx
          rcases ih _ _ x hx with h | h
          · exact Or.inl (List.mem_cons_of_mem _ h)
          · exact Or.inr h

theorem filter_go_chain :
    ∀ (rest acc : List ErrorRecord) (lastEnd : Int),
      rest.Pairwise startLE →
      acc.Chain' (fun y x => noOverlap x y) →
      (∀ last, acc.head? = some last →
        lastEnd = (last.end_pos : Int) ∧ ∀ r ∈ rest, last.start_pos ≤ r.start_pos) →
      (acc = [] → lastEnd = -1) →
      (filter_go rest acc lastEnd).Chain' noOverlap := by
  intro rest
  induction rest with
  | nil =>
    intro acc lastEnd _ hacc _ _
    rw [filter_go_nil]
    exact List.chain'_reverse.mpr hacc
  | cons e rest ih =>
    intro acc lastEnd hp hacc hlastEq hempty
    rw [List.pairwise_cons] at hp
    obtain ⟨he, hrest⟩ := hp
    cases acc with
    | nil =>
      rw [filter_go_cons_nil]
      have hgel : (e.start_pos : Int) ≥ lastEnd := by
        rw [hempty rfl]
        omega
      rw [if_pos hgel]
      apply ih [e] (e.end_pos : Int) hrest (List.chain'_singleton e)
      · intro last hlast
        rw [List.head?_cons, Option.some_inj] at hlast
        subst hlast
        exact ⟨rfl, fun r hr => he r hr⟩
      · intro h
        exact absurd h (List.cons_ne_nil e [])
    | cons last accTail =>
      rw [filter_go_cons_cons]
      by_cases hge : (e.start_pos : Int) ≥ lastEnd
      · rw [if_pos hge]
        apply ih (e :: last :: accTail) (e.end_pos : Int) hrest
        · rw [List.chain'_cons]
          refine ⟨?_, hacc⟩
          have h1 := (hlastEq last rfl).1
          unfold noOverlap
          have h2 : (last.end_pos : Int) ≤ (e.start_pos : Int) := h1 ▸ hge
          exact_mod_cast h2
        · intro x hx
          rw [List.head?_cons, Option.some_inj] at hx
          subst hx
          exact ⟨rfl, fun r hr => he r hr⟩
        · intro h
          exact absurd h (List.cons_ne_nil e _)
      · rw [if_neg hge]
        have hll := hlastEq last rfl
        by_cases hconf : e.confidence > last.confidence
        · rw [if_pos hconf]
          apply ih (e :: accTail) (e.end_pos : Int) hrest
          · cases accTail with
            | nil => exact List.chain'_singleton e
            | cons b tl =>
              rw [List.chain'_cons]
              rw [List.chain'_cons] at hacc
              refine ⟨?_, hacc.2⟩
              unfold noOverlap at hacc ⊢
              have h2 : last.start_pos ≤ e.start_pos :=
                hll.2 e (List.mem_cons_self e rest)
              exact hacc.1.trans h2
          · intro x hx
            rw [List.head?_cons, Option.some_inj] at hx
            subst hx
            exact ⟨rfl, fun r hr => he r hr⟩
          · intro h
            exact absurd h (List.cons_ne_nil e accTail)
        · rw [if_neg hconf]
          apply ih (last :: accTail) lastEnd hrest hacc
          · intro x hx
            rw [List.head?_cons, Option.some_inj] at hx
            subst hx
            exact ⟨hll.1, fun r hr => hll.2 r (List.mem_cons_of_mem e hr)⟩
          · intro h
            exact absurd h (List.cons_ne_nil last accTail)

theorem startConfLE_imp_startLE {x y : ErrorRecord} (h : startConfLE x y) : startLE x y := by
  unfold startConfLE at h
  unfold startLE
  rcases h with h | ⟨h, _⟩
  · exact Nat.le_of_lt h
  · exact Nat.le_of_eq h

theorem filter_overlapping_chain (errors : List ErrorRecord) :
    (filter_overlapping_errors errors).Chain' noOverlap := by
  unfold filter_overlapping_errors
  by_cases h : errors.isEmpty
  · rw [if_pos h]
    rw [List.isEmpty_iff] at h
    subst h
    exact List.chain'_nil
  · rw [if_neg h]
    apply filter_go_chain _ [] (-1)
    · exact (List.sorted_insertionSort startConfLE errors).imp
        (fun h => startConfLE_imp_startLE h)
    · exact List.chain'_nil
    · intro last hlast
      exact absurd hlast (by simp)
    · intro
      rfl

theorem chain_wf_pairwise :
    ∀ (l : List ErrorRecord), (∀ e ∈ l, e.start_pos ≤ e.end_pos) →
      l.Chain' noOverlap → l.Pairwise startLE := by
  intro l
  induction l with
  | nil => intro _ _; exact List.Pairwise.nil
  | cons a t ih =>
    intro hwf hch
    cases t with
    | nil => exact List.pairwise_singleton _ _
    | cons b u =>
      rw [List.chain'_cons] at hch
      have hpt := ih (fun e he => hwf e (List.mem_cons_of_mem a he)) hch.2
      rw [List.pairwise_cons]
      refine ⟨?_, hpt⟩
      intro c hc
      have hab : startLE a b := by
        unfold startLE
        have h1 : a.start_pos ≤ a.end_pos := hwf a (List.mem_cons_self a _)
        exact h1.trans hch.1
      rcases List.mem_cons.mp hc with h | h
      · exact h ▸ hab
      · have := (List.pairwise_cons.mp hpt).1 c h
        exact Nat.le_trans hab this

theorem mem_filter_overlapping {errors : List ErrorRecord} {x : ErrorRecord}
    (hx : x ∈ filter_overlapping_errors errors) : x ∈ errors := by
  unfold filter_overlapping_errors at hx
  by_cases h : errors.isEmpty
  · rwa [if_pos h] at hx
  · rw [if_neg h] at hx
    rcases filter_go_subset _ [] (-1) x hx with hm | hm
    · exact (List.perm_insertionSort startConfLE errors).mem_iff.mp hm
    · exact absurd hm (List.not_mem_nil x)

/-- C2: given two overlapping candidates (presented with `a` starting no
later than `b`), the resolver keeps exactly the higher-confidence one,
and the later candidate replaces the earlier retained one if and only if
its confidence strictly exceeds it. -/
theorem filter_overlapping_pair (a b : ErrorRecord)
    (hab : a.start_pos ≤ b.start_pos)
    (hov1 : b.start_pos < a.end_pos) (hov2 : a.start_pos < b.end_pos) :
    filter_overlapping_errors [a, b] =
      if a.confidence < b.confidence then [b] else [a] := by
  unfold filter_overlapping_errors
  rw [if_neg (by simp)]
  by_cases hle : startConfLE a b
  · have hs : List.insertionSort startConfLE [a, b] = [a, b] := by
      simp [List.insertionSort, List.orderedInsert, hle]
    rw [hs, filter_go_cons_nil, if_pos (by omega), filter_go_cons_cons,
      if_neg (by omega)]
    by_cases hconf : b.confidence > a.confidence
    · rw [if_pos hconf, filter_go_nil, List.reverse_singleton, if_pos hconf]
    · rw [if_neg hconf, filter_go_nil, List.reverse_singleton, if_neg hconf]
  · have heq : a.start_pos = b.start_pos := by
      unfold startConfLE at hle
      push_neg at hle
      omega
    have hconf : a.confidence < b.confidence := by
      unfold startConfLE at hle
      push_neg at hle
      exact hle.2 heq
    have hs : List.insertionSort startConfLE [a, b] = [b, a] := by
      simp [List.insertionSort, List.orderedInsert, hle]
    rw [hs, filter_go_cons_nil, if_pos (by omega), filter_go_cons_cons,
      if_neg (by omega)]
    rw [if_neg (not_lt.mpr hconf.le), filter_go_nil, List.reverse_singleton, if_pos hconf]

/-- C2 witness: the resolver applied to a concrete overlapping pair with
confidences 0.6 < 0.9 keeps exactly the 0.9 candidate. -/
theorem filter_overlapping_pair_witness :
    exampleOverlapA.start_pos ≤ exampleOverlapB.start_pos ∧
    exampleOverlapB.start_pos < exampleOverlapA.end_pos ∧
    exampleOverlapA.start_pos < exampleOverlapB.end_pos ∧
    filter_overlapping_errors [exampleOverlapA, exampleOverlapB] =
      (if exampleOverlapA.confidence < exampleOverlapB.confidence
       then [exampleOverlapB] else [exampleOverlapA]) :=
  ⟨by decide, by decide, by decide,
   filter_overlapping_pair exampleOverlapA exampleOverlapB
     (by decide) (by decide) (by decide)⟩

theorem matchEnds_bounds (p : RePat) (t : List Char) :
    ∀ pos, pos ≤ t.length → ∀ e ∈ matchEnds p t pos, pos ≤ e ∧ e ≤ t.length := by
  induction p with
  | cls f =>
    intro pos hpos e he
    simp only [matchEnds] at he
    split at he
    · rename_i c hget
      split at he
      · rcases List.mem_singleton.mp he with rfl
        have hlt : pos < t.length := by
          rcases List.get?_eq_some.mp hget with ⟨h, _⟩
          exact h
        omega
      · exact absurd he (List.not_mem_nil e)
    · exact absurd he (List.not_mem_nil e)
  | star f =>
    intro pos hpos e he
    simp only [matchEnds, List.mem_map, List.mem_reverse, List.mem_range] at he
    obtain ⟨j, hj, rfl⟩ := he
    have hk : ((t.drop pos).takeWhile f).length ≤ t.length - pos := by
      have h1 := (List.takeWhile_prefix f (l := t.drop pos)).length_le
      rwa [List.length_drop] at h1
    omega
  | seq p q ihp ihq =>
    intro pos hpos e he
    simp only [matchEnds, List.mem_flatMap] at he
    obtain ⟨m, hm, he⟩ := he
    obtain ⟨h1, h2⟩ := ihp pos hpos m hm
    obtain ⟨h3, h4⟩ := ihq m h2 e he
    exact ⟨h1.trans h3, h4⟩
  | alt p q ihp ihq =>
    intro pos hpos e he
    simp only [matchEnds, List.mem_append] at he
    rcases he with he | he
    · exact ihp pos hpos e he
    · exact ihq pos hpos e he
  | wb =>
    intro pos hpos e he
    simp only [matchEnds] at he
    by_cases hb : wordBoundaryAt t pos
    · rw [if_pos hb] at he
      rcases List.mem_singleton.mp he with rfl
      exact ⟨le_rfl, hpos⟩
    · rw [if_neg hb] at he; exact absurd he (List.not_mem_nil e)
  | eos =>
    intro pos hpos e he
    simp only [matchEnds] at he
    by_cases hb : atDollar t pos
    · rw [if_pos hb] at he
      rcases List.mem_singleton.mp he with rfl
      exact ⟨le_rfl, hpos⟩
    · rw [if_neg hb] at he; exact absurd he (List.not_mem_nil e)

theorem finditerAux_bounds (p : RePat) (t : List Char) :
    ∀ (fuel pos : Nat), ∀ m ∈ finditerAux p t fuel pos, m.1 ≤ m.2 ∧ m.2 ≤ t.length := by
  intro fuel
  induction fuel with
  | zero => intro pos m hm; exact absurd hm (List.not_mem_nil m)
  | succ fuel ih =>
    intro pos m hm
    rw [finditerAux] at hm
    split at hm
    · exact absurd hm (List.not_mem_nil m)
    · rename_i hgt
      split at hm
      · rename_i e hmatch
        rcases List.mem_cons.mp hm with rfl | hm
        · have he : e ∈ matchEnds p t pos := by
            apply List.mem_of_mem_head?
            unfold reMatchEnd at hmatch
            rw [hmatch]
            rfl
          exact matchEnds_bounds p t pos (by omega) e he
        · exact ih _ m hm
      · exact ih _ m hm

theorem re_finditer_bounds (p : RePat) (t : List Char) :
    ∀ m ∈ re_finditer p t, m.1 ≤ m.2 ∧ m.2 ≤ t.length :=
  fun m hm => finditerAux_bounds p t _ 0 m hm

theorem firstIdxOfSeq_bounds {sub t : List Char} {i : Nat}
    (h : firstIdxOfSeq sub t = some i) : i + sub.length ≤ t.length := by
  unfold firstIdxOfSeq at h
  have hpred := List.find?_some h
  have hmem := List.mem_of_find?_eq_some h
  rw [List.mem_range] at hmem
  have hpre : sub <+: t.drop i := List.isPrefixOf_iff_prefix.mp hpred
  have hlen := hpre.length_le
  rw [List.length_drop] at hlen
  omega

theorem wordRunsAux_bounds :
    ∀ (fuel : Nat) (t : List Char) (i : Nat), ∀ r ∈ wordRunsAux fuel t i,
      i ≤ r.1 ∧ r.1 ≤ r.2.1 ∧ r.2.1 ≤ i + t.length := by
  intro fuel
  induction fuel with
  | zero => intro t i r hr; exact absurd hr (List.not_mem_nil r)
  | succ fuel ih =>
    intro t i r hr
    cases t with
    | nil => exact absurd hr (List.not_mem_nil r)
    | cons c rest =>
      rw [wordRunsAux] at hr
      by_cases hw : isWordChar c
      · rw [if_pos hw] at hr
        have hrun : ((c :: rest).takeWhile isWordChar).length ≤ (c :: rest).length :=
          (List.takeWhile_prefix isWordChar).length_le
        rcases List.mem_cons.mp hr with rfl | hr
        · simp only
          omega
        · have hdw : ((c :: rest).dropWhile isWordChar).length ≤ (c :: rest).length :=
            (List.dropWhile_suffix isWordChar).length_le
          have htd : ((c :: rest).takeWhile isWordChar).length +
              ((c :: rest).dropWhile isWordChar).length = (c :: rest).length := by
            rw [← List.length_append, List.takeWhile_append_dropWhile]
          obtain ⟨h1, h2, h3⟩ := ih _ _ r hr
          refine ⟨by omega, h2, by omega⟩
      · rw [if_neg hw] at hr
        obtain ⟨h1, h2, h3⟩ := ih _ _ r hr
        refine ⟨by omega, h2, by simp at h3 ⊢; omega⟩

theorem wordRuns_bounds (t : List Char) :
    ∀ r ∈ wordRuns t, r.1 ≤ r.2.1 ∧ r.2.1 ≤ t.length := by
  intro r hr
  obtain ⟨h1, h2, h3⟩ := wordRunsAux_bounds _ t 0 r hr
  exact ⟨h2, by omega⟩

theorem splitOnSeq_headI_length (sep t : List Char) :
    (splitOnSeq sep t).headI.length ≤ t.length := by
  unfold splitOnSeq splitOnSeqAux
  cases h : firstIdxOfSeq sep t with
  | none => simp
  | some i => simp [List.length_take]

theorem detect_spelling_errors_bounds (t : List Char) :
    ∀ e ∈ detect_spelling_errors t, e.start_pos ≤ e.end_pos ∧ e.end_pos ≤ t.length := by
  intro e he
  simp only [detect_spelling_errors, List.mem_flatMap, List.mem_map] at he
  obtain ⟨w, _, m, hm, rfl⟩ := he
  exact re_finditer_bounds _ t m hm

theorem detect_grammar_errors_bounds (t : List Char) :
    ∀ e ∈ detect_grammar_errors t, e.start_pos ≤ e.end_pos ∧ e.end_pos ≤ t.length := by
  intro e he
  simp only [detect_grammar_errors, List.mem_flatMap, List.mem_map] at he
  obtain ⟨ps, _, m, hm, rfl⟩ := he
  exact re_finditer_bounds _ t m hm

theorem detect_punctuation_errors_bounds (t : List Char) :
    ∀ e ∈ detect_punctuation_errors t, e.start_pos ≤ e.end_pos ∧ e.end_pos ≤ t.length := by
  intro e he
  simp only [detect_punctuation_errors, List.mem_flatMap, List.mem_map] at he
  obtain ⟨ps, _, m, hm, rfl⟩ := he
  exact re_finditer_bounds _ t m hm

theorem detect_word_choice_errors_bounds (t : List Char) :
    ∀ e ∈ detect_word_choice_errors t, e.start_pos ≤ e.end_pos ∧ e.end_pos ≤ t.length := by
  intro e he
  simp only [detect_word_choice_errors, List.mem_flatMap, List.mem_map,
    List.mem_filter] at he
  obtain ⟨w, _, r, ⟨hr, _⟩, rfl⟩ := he
  exact wordRuns_bounds t r hr

theorem detect_word_repetition_bounds (t : List Char) :
    ∀ e ∈ detect_word_repetition t, e.start_pos ≤ e.end_pos ∧ e.end_pos ≤ t.length := by
  intro e he
  simp only [detect_word_repetition, List.mem_flatMap] at he
  obtain ⟨w, _, he⟩ := he
  split at he
  · split at he
    · rename_i m rest heq
      rcases List.mem_singleton.mp he with rfl
      have hm : m ∈ re_finditer (reWordCI w) t := by
        rw [heq]; exact List.mem_cons_self m rest
      exact re_finditer_bounds _ t m hm
    · exact absurd he (List.not_mem_nil e)
  · exact absurd he (List.not_mem_nil e)

theorem detect_passive_voice_bounds (t : List Char) :
    ∀ e ∈ detect_passive_voice t, e.start_pos ≤ e.end_pos ∧ e.end_pos ≤ t.length := by
  intro e he
  simp only [detect_passive_voice, List.mem_flatMap] at he
  obtain ⟨m, hm, he⟩ := he
  split at he
  · exact absurd he (List.not_mem_nil e)
  · rcases List.mem_singleton.mp he with rfl
    exact re_finditer_bounds _ t m hm

theorem detect_style_issues_bounds (t : List Char) :
    ∀ e ∈ detect_style_issues t, e.start_pos ≤ e.end_pos ∧ e.end_pos ≤ t.length := by
  intro e he
  simp only [detect_style_issues, List.mem_append] at he
  rcases he with (he | he) | he
  · simp only [List.mem_flatMap, List.mem_map] at he
    obtain ⟨p, _, m, hm, rfl⟩ := he
    exact re_finditer_bounds _ t m hm
  · exact detect_word_repetition_bounds t e he
  · exact detect_passive_voice_bounds t e he

theorem detect_redundancy_issues_bounds (t : List Char) :
    ∀ e ∈ detect_redundancy_issues t, e.start_pos ≤ e.end_pos ∧ e.end_pos ≤ t.length := by
  intro e he
  simp only [detect_redundancy_issues, List.mem_flatMap, List.mem_map] at he
  obtain ⟨w, _, m, hm, rfl⟩ := he
  exact re_finditer_bounds _ t m hm

theorem firstSentenceOf_length (p : List Char) :
    (firstSentenceOf p).length ≤ p.length := by
  unfold firstSentenceOf lowerText
  rw [List.length_map]
  exact splitOnSeq_headI_length _ p

theorem detect_coherence_issues_bounds (t : List Char) :
    ∀ e ∈ detect_coherence_issues t, e.start_pos ≤ e.end_pos ∧ e.end_pos ≤ t.length := by
  intro e he
  unfold detect_coherence_issues at he
  split at he
  · exact absurd he (List.not_mem_nil e)
  · simp only [List.mem_flatMap] at he
    obtain ⟨p, _, he⟩ := he
    split at he
    · split at he
      · rename_i s heq
        rcases List.mem_singleton.mp he with rfl
        have h1 := firstIdxOfSeq_bounds heq
        have h2 := firstSentenceOf_length p
        constructor <;> dsimp only <;> omega
      · exact absurd he (List.not_mem_nil e)
    · exact absurd he (List.not_mem_nil e)

theorem detect_clarity_issues_bounds (t : List Char) :
    ∀ e ∈ detect_clarity_issues t, e.start_pos ≤ e.end_pos ∧ e.end_pos ≤ t.length := by
  intro e he
  simp only [detect_clarity_issues, List.mem_flatMap] at he
  obtain ⟨s, _, he⟩ := he
  split at he
  · split at he
    · rename_i i heq
      rcases List.mem_singleton.mp he with rfl
      have h1 := firstIdxOfSeq_bounds heq
      constructor <;> dsimp only <;> omega
    · exact absurd he (List.not_mem_nil e)
  · exact absurd he (List.not_mem_nil e)

theorem all_candidates_bounds (t : List Char) :
    ∀ e ∈ all_candidates t, e.start_pos ≤ e.end_pos ∧ e.end_pos ≤ t.length := by
  intro e he
  simp only [all_candidates, List.mem_append] at he
  rcases he with ((((((he | he) | he) | he) | he) | he) | he) | he
  · exact detect_spelling_errors_bounds t e he
  · exact detect_grammar_errors_bounds t e he
  · exact detect_punctuation_errors_bounds t e he
  · exact detect_word_choice_errors_bounds t e he
  · exact detect_style_issues_bounds t e he
  · exact detect_coherence_issues_bounds t e he
  · exact detect_redundancy_issues_bounds t e he
  · exact detect_clarity_issues_bounds t e he

theorem mem_detect_all_errors_candidates {t : List Char} {e : ErrorRecord}
    (he : e ∈ detect_all_errors t) : e ∈ all_candidates t := by
  unfold detect_all_errors at he
  have h1 := mem_filter_overlapping he
  exact (List.perm_insertionSort startLE (all_candidates t)).mem_iff.mp h1

/-- C1: for every input text, the resolved error set returned by
detection is ordered by start offset and overlap-free: any two
consecutive retained records `i < j` satisfy
`errorSet[i].end_pos ≤ errorSet[j].start_pos`. -/
theorem detect_all_errors_sorted_nonoverlapping (t : List Char) :
    List.Sorted startLE (detect_all_errors t) ∧
      (detect_all_errors t).Chain' noOverlap := by
  constructor
  · apply chain_wf_pairwise
    · intro e he
      exact (all_candidates_bounds t e (mem_detect_all_errors_candidates he)).1
    · exact filter_overlapping_chain _
  · exact filter_overlapping_chain _

set_option maxRecDepth 4000 in
/-- C8 counterexample: on `exampleDegenText` the second paragraph begins
with a period, so its first sentence is empty and detection returns a
single coherence record with `start_pos = end_pos = 3`, violating
`start < end`. -/
theorem detect_all_errors_degenerate_record :
    detect_all_errors exampleDegenText =
      [⟨.coherence, 3, 3, .low, deci 3 5⟩] ∧
    ¬ (∀ e ∈ detect_all_errors exampleDegenText, e.start_pos < e.end_pos) := by
  constructor
  · decide
  · intro h
    have h2 := h ⟨.coherence, 3, 3, .low, deci 3 5⟩ (by decide)
    exact absurd h2 (by decide)

/-- C8 (amended): every error record produced by detection satisfies
`start_pos ≤ end_pos` and `end_pos ≤ length text`; the equality
`start_pos = end_pos` occurs exactly in the coherence corner case of the
counterexample. -/
theorem detect_all_errors_record_bounds (t : List Char) :
    ∀ e ∈ detect_all_errors t, e.start_pos ≤ e.end_pos ∧ e.end_pos ≤ t.length := by
  intro e he
  exact all_candidates_bounds t e (mem_detect_all_errors_candidates he)

set_option maxRecDepth 4000 in
/-- C8 witness: the amended record invariant applied at a concrete text
and record. -/
theorem detect_all_errors_record_bounds_witness :
    (⟨.coherence, 3, 3, .low, deci 3 5⟩ : ErrorRecord) ∈ detect_all_errors exampleDegenText ∧
    ((3 : Nat) ≤ 3 ∧ (3 : Nat) ≤ exampleDegenText.length) :=
  ⟨by decide,
   detect_all_errors_record_bounds exampleDegenText
     ⟨.coherence, 3, 3, .low, deci 3 5⟩ (by decide)⟩

theorem splitOnSeqAux_infixOf (sep : List Char) :
    ∀ (fuel : Nat) (t : List Char), ∀ q ∈ splitOnSeqAux sep fuel t, q <:+: t := by
  intro fuel
  induction fuel with
  | zero =>
    intro t q hq
    rw [splitOnSeqAux] at hq
    rcases List.mem_singleton.mp hq with rfl
    exact List.infix_refl _
  | succ fuel ih =>
    intro t q hq
    rw [splitOnSeqAux] at hq
    split at hq
    · rcases List.mem_singleton.mp hq with rfl
      exact List.infix_refl _
    · rename_i i heq
      rcases List.mem_cons.mp hq with rfl | hq
      · exact (List.take_prefix i t).isInfix
      · exact (ih _ q hq).trans (List.drop_suffix _ t).isInfix

theorem stripText_infixOf (q : List Char) : stripText q <:+: q := by
  unfold stripText
  have h1 : q.dropWhile isSpaceChar <:+ q := List.dropWhile_suffix _
  have h2 : ((q.dropWhile isSpaceChar).reverse.dropWhile isSpaceChar) <:+
      (q.dropWhile isSpaceChar).reverse := List.dropWhile_suffix _
  obtain ⟨pre, hpre⟩ := h2
  have h3 : ((q.dropWhile isSpaceChar).reverse.dropWhile isSpaceChar).reverse <+:
      q.dropWhile isSpaceChar := by
    refine ⟨pre.reverse, ?_⟩
    have h4 := congrArg List.reverse hpre
    rwa [List.reverse_append, List.reverse_reverse] at h4
  exact h3.isInfix.trans h1.isInfix

theorem paragraphsOf_infixOf (t : List Char) : ∀ p ∈ paragraphsOf t, p <:+: t := by
  intro p hp
  unfold paragraphsOf at hp
  rw [List.mem_filter] at hp
  obtain ⟨hp, _⟩ := hp
  rw [List.mem_map] at hp
  obtain ⟨q, hq, rfl⟩ := hp
  exact (stripText_infixOf q).trans (splitOnSeqAux_infixOf _ _ t q hq)

theorem infix_firstIdxOfSeq_isSome {sub t : List Char} (h : sub <:+: t) :
    (firstIdxOfSeq sub t).isSome := by
  obtain ⟨s, r, hst⟩ := h
  unfold firstIdxOfSeq
  rw [List.find?_isSome]
  refine ⟨s.length, List.mem_range.mpr ?_, ?_⟩
  · have hl : t.length = s.length + sub.length + r.length := by
      rw [← hst]
      simp [List.length_append]
      omega
    omega
  · apply List.isPrefixOf_iff_prefix.mpr
    refine ⟨r, ?_⟩
    have hd : t.drop s.length = sub ++ r := by
      rw [← hst, List.append_assoc, List.drop_left]
    rw [hd]

theorem coherence_flatMap_eq (t : List Char) :
    ∀ (l : List (List Char)), (∀ p ∈ l, (firstIdxOfSeq p t).isSome) →
      (l.flatMap (fun p =>
        if coherenceFlagged p then
          match firstIdxOfSeq p t with
          | some s =>
            [(⟨.coherence, s, s + (firstSentenceOf p).length, .low, deci 3 5⟩ : ErrorRecord)]
          | none => []
        else [])) =
      (l.filter coherenceFlagged).map (fun p =>
        (⟨.coherence, (firstIdxOfSeq p t).getD 0,
          (firstIdxOfSeq p t).getD 0 + (firstSentenceOf p).length, .low,
          deci 3 5⟩ : ErrorRecord)) := by
  intro l
  induction l with
  | nil => intro _; rfl
  | cons p rest ih =>
    intro h
    have hp := h p (List.mem_cons_self p rest)
    have hrest := fun q hq => h q (List.mem_cons_of_mem p hq)
    rw [List.flatMap_cons, List.filter_cons, ih hrest]
    by_cases hf : coherenceFlagged p
    · rw [if_pos hf, if_pos hf]
      obtain ⟨s, hs⟩ := Option.isSome_iff_exists.mp hp
      rw [List.map_cons, hs]
      rfl
    · rw [if_neg hf, if_neg hf, List.nil_append]

/-- C7 (amended): the coherence detector flags exactly one issue per
paragraph after the first that exceeds 50 characters and whose first
sentence holds no transition word; each issue is anchored at the offset
of the *first occurrence* of that paragraph's stripped text in the
original text (`text.find(paragraph)`), which always exists, and spans
that paragraph's first sentence. -/
theorem detect_coherence_issues_spec (t : List Char) :
    (detect_coherence_issues t =
      (if (paragraphsOf t).length ≤ 1 then []
       else (((paragraphsOf t).drop 1).filter coherenceFlagged).map (fun p =>
         (⟨.coherence, (firstIdxOfSeq p t).getD 0,
           (firstIdxOfSeq p t).getD 0 + (firstSentenceOf p).length, .low,
           deci 3 5⟩ : ErrorRecord)))) ∧
    ∀ p ∈ (paragraphsOf t).drop 1, (firstIdxOfSeq p t).isSome := by
  have hsome : ∀ p ∈ (paragraphsOf t).drop 1, (firstIdxOfSeq p t).isSome :=
    fun p hp => infix_firstIdxOfSeq_isSome (paragraphsOf_infixOf t p (List.mem_of_mem_drop hp))
  constructor
  · unfold detect_coherence_issues
    by_cases hlen : (paragraphsOf t).length ≤ 1
    · rw [if_pos hlen, if_pos hlen]
    · rw [if_neg hlen, if_neg hlen]
      exact coherence_flatMap_eq t _ hsome
  · exact hsome

set_option maxRecDepth 4000 in
/-- C7 counterexample: in `exampleDupParaText` the second paragraph's
text also occurs at offset 0; the flagged issue for paragraph 2 is
anchored at 0, not at paragraph 2's own start offset 62. -/
theorem detect_coherence_wrong_anchor :
    exampleDupParaText = exampleDupPara ++ '\n' :: '\n' :: exampleDupPara ∧
    paragraphsOf exampleDupParaText = [exampleDupPara, exampleDupPara] ∧
    coherenceFlagged exampleDupPara = true ∧
    (detect_coherence_issues exampleDupParaText).map (fun e => e.start_pos) = [0] ∧
    (detect_coherence_issues exampleDupParaText).map (fun e => e.start_pos) ≠
      [exampleDupPara.length + 2] :=
  ⟨by decide, by decide, by decide, by decide, by decide⟩

set_option maxRecDepth 4000 in
/-- C7 witness: the amended statement applied at a concrete two-paragraph
essay whose second paragraph qualifies. -/
theorem detect_coherence_issues_spec_witness :
    exampleSecondPara ∈ (paragraphsOf exampleTwoParaText).drop 1 ∧
    (firstIdxOfSeq exampleSecondPara exampleTwoParaText).isSome :=
  ⟨by decide,
   (detect_coherence_issues_spec exampleTwoParaText).2 exampleSecondPara (by decide)⟩

/-- C9: when the model-score provider fails (raises, modelled as `none`),
`get_ml_scores` substitutes the neutral default 6.0 for all five scores
and the score pipeline runs to completion with exactly the result it
would produce for a provider returning those defaults.  `analyze_scores`
is total, so the analysis never fails on a provider failure, and
`AspectScores` (like the result dictionary in the source) carries no
degraded flag: the failure is visible only through the score values. -/
theorem ml_failure_neutral_default (essay prompt level : List Char) :
    get_ml_scores none = ⟨6.0, 6.0, 6.0, 6.0, 6.0⟩ ∧
    analyze_scores essay prompt level none =
      analyze_scores essay prompt level (some ⟨6.0, 6.0, 6.0, 6.0, 6.0⟩) :=
  ⟨rfl, rfl⟩

theorem level_factor_bounds (level : List Char) :
    0.9 ≤ level_factor level ∧ level_factor level ≤ 1.1 := by
  unfold level_factor
  split_ifs <;> norm_num

theorem min_le_ten {x : ℚ} : min x 10.0 ≤ 10 := (min_le_right x 10.0).trans (by norm_num)

theorem min10_le_ten {x : ℚ} : min 10.0 x ≤ 10 := (min_le_left 10.0 x).trans (by norm_num)

theorem add_ge_of_ge_of_nonneg {c x y : ℚ} (hx : 0 ≤ x) (hy : c ≤ y) : c ≤ y + x := by
  linarith

theorem score_content_bounds (essay prompt : List Char) (f : EssayFeatures) :
    4 ≤ score_content_rule_based essay prompt f ∧
      score_content_rule_based essay prompt f ≤ 10 := by
  unfold score_content_rule_based
  refine ⟨le_min ?_ (by norm_num), min_le_ten⟩
  apply add_ge_of_ge_of_nonneg (by positivity)
  apply add_ge_of_ge_of_nonneg (by split_ifs <;> norm_num)
  apply add_ge_of_ge_of_nonneg (le_min (by positivity) (by norm_num))
  split_ifs <;> norm_num

theorem score_organization_bounds (essay : List Char) (f : EssayFeatures) :
    4 ≤ score_organization_rule_based essay f ∧
      score_organization_rule_based essay f ≤ 10 := by
  unfold score_organization_rule_based
  refine ⟨le_min ?_ (by norm_num), min_le_ten⟩
  apply add_ge_of_ge_of_nonneg (by split_ifs <;> norm_num)
  apply add_ge_of_ge_of_nonneg (le_min (by positivity) (by norm_num))
  apply add_ge_of_ge_of_nonneg (by split_ifs <;> norm_num)
  apply add_ge_of_ge_of_nonneg (by split_ifs <;> norm_num)
  split_ifs <;> norm_num

theorem add_ge_of_ge_half {c x y : ℚ} (hx : -0.5 ≤ x) (hy : c + 0.5 ≤ y) : c ≤ y + x := by
  linarith

theorem features_ratio_nonneg (t : List Char) :
    0 ≤ (analyze_essay_features t).vocabulary_diversity ∧
    0 ≤ (analyze_essay_features t).academic_vocabulary_ratio ∧
    0 ≤ (analyze_essay_features t).complex_sentence_ratio := by
  unfold analyze_essay_features
  refine ⟨?_, ?_, ?_⟩ <;> positivity

theorem score_language_bounds (f : EssayFeatures)
    (hac : 0 ≤ f.academic_vocabulary_ratio) (hcx : 0 ≤ f.complex_sentence_ratio) :
    3.5 ≤ score_language_rule_based f ∧ score_language_rule_based f ≤ 10 := by
  unfold score_language_rule_based
  refine ⟨le_min ?_ (by norm_num), min_le_ten⟩
  apply add_ge_of_ge_of_nonneg (le_min (by positivity) (by norm_num))
  apply add_ge_of_ge_of_nonneg (le_min (by positivity) (by norm_num))
  apply add_ge_of_ge_half (by split_ifs <;> norm_num)
  split_ifs <;> norm_num

theorem severity_deduction_nonneg (s : Severity) : 0 ≤ severity_deduction s := by
  cases s <;> norm_num [severity_deduction]

theorem foldl_deduct_le (l : List ErrorRecord) :
    ∀ a : ℚ, l.foldl (fun s e => s - severity_deduction e.severity) a ≤ a := by
  induction l with
  | nil => intro a; exact le_rfl
  | cons e rest ih =>
    intro a
    rw [List.foldl_cons]
    have h1 := ih (a - severity_deduction e.severity)
    have h2 := severity_deduction_nonneg e.severity
    linarith

theorem score_conventions_bounds (essay : List Char) :
    1 ≤ score_conventions_rule_based essay ∧ score_conventions_rule_based essay ≤ 8 := by
  unfold score_conventions_rule_based
  refine ⟨le_trans (by norm_num : (1:ℚ) ≤ 1.0) (le_max_right _ _), max_le ?_ (by norm_num)⟩
  have := foldl_deduct_le (detect_errors essay) 8.0
  linarith

set_option maxHeartbeats 1000000 in
theorem get_rule_based_scores_bounds (essay prompt level : List Char) :
    (1 ≤ (get_rule_based_scores essay prompt level).overall ∧
      (get_rule_based_scores essay prompt level).overall ≤ 10) ∧
    (1 ≤ (get_rule_based_scores essay prompt level).content ∧
      (get_rule_based_scores essay prompt level).content ≤ 10) ∧
    (1 ≤ (get_rule_based_scores essay prompt level).organization ∧
      (get_rule_based_scores essay prompt level).organization ≤ 10) ∧
    (1 ≤ (get_rule_based_scores essay prompt level).language ∧
      (get_rule_based_scores essay prompt level).language ≤ 10) ∧
    (1 ≤ (get_rule_based_scores essay prompt level).conventions ∧
      (get_rule_based_scores essay prompt level).conventions ≤ 10) := by
  obtain ⟨hf1, hf2⟩ := level_factor_bounds level
  obtain ⟨hc1, hc2⟩ := score_content_bounds essay prompt (analyze_essay_features essay)
  obtain ⟨ho1, ho2⟩ := score_organization_bounds essay (analyze_essay_features essay)
  obtain ⟨hra, hrb, hrc⟩ := features_ratio_nonneg essay
  obtain ⟨hl1, hl2⟩ := score_language_bounds (analyze_essay_features essay) hrb hrc
  obtain ⟨hv1, hv2⟩ := score_conventions_bounds essay
  have hmulc : (1 : ℚ) ≤ score_content_rule_based essay prompt (analyze_essay_features essay) *
      level_factor level := by nlinarith
  have hmulo : (1 : ℚ) ≤ score_organization_rule_based essay (analyze_essay_features essay) *
      level_factor level := by nlinarith
  have hmull : (1 : ℚ) ≤ score_language_rule_based (analyze_essay_features essay) *
      level_factor level := by nlinarith
  unfold get_rule_based_scores
  refine ⟨⟨?_, ?_⟩, ⟨le_min (by norm_num) hmulc, min10_le_ten⟩,
    ⟨le_min (by norm_num) hmulo, min10_le_ten⟩,
    ⟨le_min (by norm_num) hmull, min10_le_ten⟩,
    ⟨le_min (by norm_num) hv1, min10_le_ten⟩⟩
  · have a1 : (1:ℚ) ≤ min 10.0 (score_content_rule_based essay prompt (analyze_essay_features essay) * level_factor level) := le_min (by norm_num) hmulc
    have a2 : (1:ℚ) ≤ min 10.0 (score_organization_rule_based essay (analyze_essay_features essay) * level_factor level) := le_min (by norm_num) hmulo
    have a3 : (1:ℚ) ≤ min 10.0 (score_language_rule_based (analyze_essay_features essay) * level_factor level) := le_min (by norm_num) hmull
    have a4 : (1:ℚ) ≤ min 10.0 (score_conventions_rule_based essay) := le_min (by norm_num) hv1
    linarith
  · have b1 := min_le_left (10.0 : ℚ) (score_content_rule_based essay prompt (analyze_essay_features essay) * level_factor level)
    have b2 := min_le_left (10.0 : ℚ) (score_organization_rule_based essay (analyze_essay_features essay) * level_factor level)
    have b3 := min_le_left (10.0 : ℚ) (score_language_rule_based (analyze_essay_features essay) * level_factor level)
    have b4 := min_le_left (10.0 : ℚ) (score_conventions_rule_based essay)
    linarith

theorem combine_scores_bounds (ml rule : AspectScores)
    (hmc1 : 1 ≤ ml.content) (hmc2 : ml.content ≤ 10)
    (hmg1 : 1 ≤ ml.organization) (hmg2 : ml.organization ≤ 10)
    (hml1 : 1 ≤ ml.language) (hml2 : ml.language ≤ 10)
    (hmv1 : 1 ≤ ml.conventions) (hmv2 : ml.conventions ≤ 10)
    (hrc1 : 1 ≤ rule.content) (hrc2 : rule.content ≤ 10)
    (hrg1 : 1 ≤ rule.organization) (hrg2 : rule.organization ≤ 10)
    (hrl1 : 1 ≤ rule.language) (hrl2 : rule.language ≤ 10)
    (hrv1 : 1 ≤ rule.conventions) (hrv2 : rule.conventions ≤ 10) :
    (1 ≤ (combine_scores ml rule).overall ∧ (combine_scores ml rule).overall ≤ 10) ∧
    (1 ≤ (combine_scores ml rule).content ∧ (combine_scores ml rule).content ≤ 10) ∧
    (1 ≤ (combine_scores ml rule).organization ∧ (combine_scores ml rule).organization ≤ 10) ∧
    (1 ≤ (combine_scores ml rule).language ∧ (combine_scores ml rule).language ≤ 10) ∧
    (1 ≤ (combine_scores ml rule).conventions ∧ (combine_scores ml rule).conventions ≤ 10) := by
  obtain ⟨e1, e2, e3, e4, e5⟩ := combine_scores_closed_form ml rule
  have hc : 1 ≤ (combine_scores ml rule).content ∧ (combine_scores ml rule).content ≤ 10 := by
    rw [e1]; split_ifs <;> constructor <;> linarith
  have hg : 1 ≤ (combine_scores ml rule).organization ∧
      (combine_scores ml rule).organization ≤ 10 := by
    rw [e2]; split_ifs <;> constructor <;> linarith
  have hl : 1 ≤ (combine_scores ml rule).language ∧ (combine_scores ml rule).language ≤ 10 := by
    rw [e3]; split_ifs <;> constructor <;> linarith
  have hv : 1 ≤ (combine_scores ml rule).conventions ∧
      (combine_scores ml rule).conventions ≤ 10 := by
    rw [e4]; split_ifs <;> constructor <;> linarith
  refine ⟨⟨?_, ?_⟩, hc, hg, hl, hv⟩ <;> rw [e5]
  · linarith [hc.1, hg.1, hl.1, hv.1]
  · linarith [hc.2, hg.2, hl.2, hv.2]

theorem ite_clamp_bounds (c : Prop) [Decidable c] (v pen : ℚ)
    (hv1 : 1 ≤ v) (hv2 : v ≤ 10) (hpen : 0 ≤ pen) :
    1 ≤ (if c then max (v - pen) 1.0 else v) ∧
      (if c then max (v - pen) 1.0 else v) ≤ 10 := by
  split_ifs
  · exact ⟨le_trans (by norm_num) (le_max_right _ _),
      max_le (by linarith) (by norm_num)⟩
  · exact ⟨hv1, hv2⟩

theorem adjust_scores_bounds (scores : AspectScores) (errors : List ErrorRecord)
    (hc1 : 1 ≤ scores.content) (hc2 : scores.content ≤ 10)
    (ho1 : 1 ≤ scores.organization) (ho2 : scores.organization ≤ 10)
    (hl1 : 1 ≤ scores.language) (hl2 : scores.language ≤ 10)
    (hv1 : 1 ≤ scores.conventions) (hv2 : scores.conventions ≤ 10) :
    (1 ≤ (adjust_scores_for_errors scores errors).overall ∧
      (adjust_scores_for_errors scores errors).overall ≤ 10) ∧
    (1 ≤ (adjust_scores_for_errors scores errors).content ∧
      (adjust_scores_for_errors scores errors).content ≤ 10) ∧
    (1 ≤ (adjust_scores_for_errors scores errors).organization ∧
      (adjust_scores_for_errors scores errors).organization ≤ 10) ∧
    (1 ≤ (adjust_scores_for_errors scores errors).language ∧
      (adjust_scores_for_errors scores errors).language ≤ 10) ∧
    (1 ≤ (adjust_scores_for_errors scores errors).conventions ∧
      (adjust_scores_for_errors scores errors).conventions ≤ 10) := by
  have hcv := ite_clamp_bounds
    (count_category errors .spelling + count_category errors .grammar +
      count_category errors .punctuation + count_category errors .style > 0)
    scores.conventions
    (min (((count_category errors .spelling + count_category errors .grammar +
      count_category errors .punctuation + count_category errors .style : Nat) : ℚ) * 0.15) 2.5)
    hv1 hv2 (le_min (by positivity) (by norm_num))
  have hlg := ite_clamp_bounds (count_category errors .style > 3) scores.language
    (min ((count_category errors .style : ℚ) * 0.1) 1.0)
    hl1 hl2 (le_min (by positivity) (by norm_num))
  rw [adjust_scores_closed_form scores errors]
  refine ⟨⟨?_, ?_⟩, ⟨hc1, hc2⟩, ⟨ho1, ho2⟩, hlg, hcv⟩
  · have h1 := hcv.1
    have h2 := hlg.1
    dsimp only
    linarith
  · have h1 := hcv.2
    have h2 := hlg.2
    dsimp only
    linarith

/-- C6: for every essay, prompt and level, when the model-score provider
returns aspect scores in `[1, 10]`, every aspect score of the final
adjusted dictionary lies in `[1.0, 10.0]`. -/
theorem analyze_scores_in_range (essay prompt level : List Char) (ml : AspectScores)
    (hmo1 : 1 ≤ ml.overall) (hmo2 : ml.overall ≤ 10)
    (hmc1 : 1 ≤ ml.content) (hmc2 : ml.content ≤ 10)
    (hmg1 : 1 ≤ ml.organization) (hmg2 : ml.organization ≤ 10)
    (hml1 : 1 ≤ ml.language) (hml2 : ml.language ≤ 10)
    (hmv1 : 1 ≤ ml.conventions) (hmv2 : ml.conventions ≤ 10) :
    (1 ≤ (analyze_scores essay prompt level (some ml)).overall ∧
      (analyze_scores essay prompt level (some ml)).overall ≤ 10) ∧
    (1 ≤ (analyze_scores essay prompt level (some ml)).content ∧
      (analyze_scores essay prompt level (some ml)).content ≤ 10) ∧
    (1 ≤ (analyze_scores essay prompt level (some ml)).organization ∧
      (analyze_scores essay prompt level (some ml)).organization ≤ 10) ∧
    (1 ≤ (analyze_scores essay prompt level (some ml)).language ∧
      (analyze_scores essay prompt level (some ml)).language ≤ 10) ∧
    (1 ≤ (analyze_scores essay prompt level (some ml)).conventions ∧
      (analyze_scores essay prompt level (some ml)).conventions ≤ 10) := by
  obtain ⟨_, ⟨rc1, rc2⟩, ⟨rg1, rg2⟩, ⟨rl1, rl2⟩, ⟨rv1, rv2⟩⟩ :=
    get_rule_based_scores_bounds essay prompt level
  obtain ⟨_, ⟨cc1, cc2⟩, ⟨cg1, cg2⟩, ⟨cl1, cl2⟩, ⟨cv1, cv2⟩⟩ :=
    combine_scores_bounds ml (get_rule_based_scores essay prompt level)
      hmc1 hmc2 hmg1 hmg2 hml1 hml2 hmv1 hmv2 rc1 rc2 rg1 rg2 rl1 rl2 rv1 rv2
  exact adjust_scores_bounds _ _ cc1 cc2 cg1 cg2 cl1 cl2 cv1 cv2

/-- C6 witness: the score-range guarantee applied at a concrete essay,
prompt, level and model result. -/
theorem analyze_scores_in_range_witness :
    (1 ≤ exampleScoresMid.content ∧ exampleScoresMid.content ≤ 10) ∧
    (1 ≤ (analyze_scores "Hi.".toList "Hi".toList "intermediate".toList
        (some exampleScoresMid)).overall ∧
      (analyze_scores "Hi.".toList "Hi".toList "intermediate".toList
        (some exampleScoresMid)).overall ≤ 10) :=
  ⟨⟨by norm_num [exampleScoresMid], by norm_num [exampleScoresMid]⟩,
   (analyze_scores_in_range "Hi.".toList "Hi".toList "intermediate".toList exampleScoresMid
     (by norm_num [exampleScoresMid]) (by norm_num [exampleScoresMid])
     (by norm_num [exampleScoresMid]) (by norm_num [exampleScoresMid])
     (by norm_num [exampleScoresMid]) (by norm_num [exampleScoresMid])
     (by norm_num [exampleScoresMid]) (by norm_num [exampleScoresMid])
     (by norm_num [exampleScoresMid]) (by norm_num [exampleScoresMid])).1⟩
